import Mathlib

/-!
# Verification of the nostrich-signer challenge-to-assertion pipeline

Shallow embedding of the repository's pipeline code:

* `client/src/lib/nostr.ts` — key generation/import, NWC URI parsing, event
  building and signing (two observed variants of the parser and signer exist
  in the repository; both are embedded below).
* `server/routes.ts` — the `/api/publish-event` proxy handler.

Library functions the code calls (the WHATWG `URL` class, JavaScript's
`decodeURIComponent`, `nostr-tools` / `@noble/curves` signing primitives,
`bech32` encoding used by `nip19`) are modelled from their standards
(WHATWG URL, ECMA-262, BIP340, BIP173, NIP-19), at the level of detail the
repository's code exercises.  Deviations are noted in doc comments.
-/

namespace Nostrich

/-! ## Character and hex helpers -/

/-- Numeric value of a hex digit, accepting both cases (as JavaScript's
percent-decoders and `@noble/hashes` `hexToBytes` do). -/
def hexDigitVal (c : Char) : Option Nat :=
  if '0' ≤ c ∧ c ≤ '9' then some (c.toNat - '0'.toNat)
  else if 'a' ≤ c ∧ c ≤ 'f' then some (c.toNat - 'a'.toNat + 10)
  else if 'A' ≤ c ∧ c ≤ 'F' then some (c.toNat - 'A'.toNat + 10)
  else none

/-- Lower-case hex digit for a value below 16 (`@noble/hashes` `bytesToHex`). -/
def hexDigitChar (n : Nat) : Char :=
  if n < 10 then Char.ofNat ('0'.toNat + n) else Char.ofNat ('a'.toNat + n - 10)

/-- Two lower-case hex digits of a byte. -/
def byteToHex (b : Nat) : List Char :=
  [hexDigitChar (b / 16), hexDigitChar (b % 16)]

/-- Lower-case hex string of a byte list (`@noble/hashes` `bytesToHex`). -/
def bytesToHex (bs : List Nat) : String :=
  String.mk (List.flatten (bs.map byteToHex))

/-- Parse a hex string into bytes (`@noble/hashes` `hexToBytes`): requires an
even number of hex digits, accepts both cases, fails on any other char. -/
def hexToBytesAux : List Char → Option (List Nat)
  | [] => some []
  | [_] => none
  | c1 :: c2 :: rest =>
    match hexDigitVal c1, hexDigitVal c2 with
    | some h, some l => (hexToBytesAux rest).map (fun bs => (16 * h + l) :: bs)
    | _, _ => none

/-- Model of `@noble/hashes` `hexToBytes` (the TypeScript function throws on
bad input; the throw is modelled as `none`). -/
def hexToBytes (s : String) : Option (List Nat) :=
  hexToBytesAux s.toList

/-! ## UTF-8 encoding and decoding -/

/-- UTF-8 bytes of one scalar value. -/
def utf8EncodeChar (c : Char) : List Nat :=
  let n := c.toNat
  if n < 0x80 then [n]
  else if n < 0x800 then [0xC0 + n / 64, 0x80 + n % 64]
  else if n < 0x10000 then [0xE0 + n / 4096, 0x80 + (n / 64) % 64, 0x80 + n % 64]
  else [0xF0 + n / 262144, 0x80 + (n / 4096) % 64, 0x80 + (n / 64) % 64, 0x80 + n % 64]

/-- UTF-8 bytes of a string. -/
def utf8Encode (s : String) : List Nat :=
  List.flatten (s.toList.map utf8EncodeChar)

/-- Whether a byte is a UTF-8 continuation byte. -/
def isCont (b : Nat) : Bool := 0x80 ≤ b ∧ b ≤ 0xBF

/-- Strict UTF-8 decoding (fuel-driven so that it reduces in the kernel).
Rejects overlong forms, surrogates and out-of-range values, as the UTF-8
decoder behind JavaScript's `decodeURIComponent` does. -/
def utf8DecodeAux : Nat → List Nat → Option (List Char)
  | _, [] => some []
  | 0, _ :: _ => none
  | fuel + 1, b :: rest =>
    if b < 0x80 then
      (utf8DecodeAux fuel rest).map (fun cs => Char.ofNat b :: cs)
    else if b < 0xC2 then none
    else if b < 0xE0 then
      match rest with
      | b2 :: rest2 =>
        if isCont b2 then
          (utf8DecodeAux fuel rest2).map (fun cs => Char.ofNat ((b - 0xC0) * 64 + (b2 - 0x80)) :: cs)
        else none
      | _ => none
    else if b < 0xF0 then
      match rest with
      | b2 :: b3 :: rest2 =>
        if (if b = 0xE0 then 0xA0 ≤ b2 ∧ b2 ≤ 0xBF
            else if b = 0xED then 0x80 ≤ b2 ∧ b2 ≤ 0x9F
            else isCont b2 = true) ∧ isCont b3 = true then
          (utf8DecodeAux fuel rest2).map
            (fun cs => Char.ofNat ((b - 0xE0) * 4096 + (b2 - 0x80) * 64 + (b3 - 0x80)) :: cs)
        else none
      | _ => none
    else if b < 0xF5 then
      match rest with
      | b2 :: b3 :: b4 :: rest2 =>
        if (if b = 0xF0 then 0x90 ≤ b2 ∧ b2 ≤ 0xBF
            else if b = 0xF4 then 0x80 ≤ b2 ∧ b2 ≤ 0x8F
            else isCont b2 = true) ∧ isCont b3 = true ∧ isCont b4 = true then
          (utf8DecodeAux fuel rest2).map
            (fun cs => Char.ofNat ((b - 0xF0) * 262144 + (b2 - 0x80) * 4096 + (b3 - 0x80) * 64 + (b4 - 0x80)) :: cs)
        else none
      | _ => none
    else none

/-- Strict UTF-8 decoding of a byte list. -/
def utf8Decode (bs : List Nat) : Option (List Char) :=
  utf8DecodeAux bs.length bs

/-- Lossy UTF-8 decoding (fuel-driven): an invalid or incomplete sequence
emits U+FFFD and skips one byte, as the WHATWG form-urlencoded decoder does.
Exact resynchronisation points of the standard's "maximal subpart" rule are
not modelled; this only matters for already-invalid inputs. -/
def utf8DecodeLossyAux : Nat → List Nat → List Char
  | _, [] => []
  | 0, _ => []
  | fuel + 1, b :: rest =>
    match utf8DecodeAux 3 (List.take 4 (b :: rest)) with
    | _ =>
      if b < 0x80 then Char.ofNat b :: utf8DecodeLossyAux fuel rest
      else if 0xC2 ≤ b ∧ b < 0xE0 then
        match rest with
        | b2 :: rest2 =>
          if isCont b2 then Char.ofNat ((b - 0xC0) * 64 + (b2 - 0x80)) :: utf8DecodeLossyAux fuel rest2
          else Char.ofNat 0xFFFD :: utf8DecodeLossyAux fuel rest
        | [] => [Char.ofNat 0xFFFD]
      else if 0xE0 ≤ b ∧ b < 0xF0 then
        match rest with
        | b2 :: b3 :: rest2 =>
          if (if b = 0xE0 then decide (0xA0 ≤ b2 ∧ b2 ≤ 0xBF)
              else if b = 0xED then decide (0x80 ≤ b2 ∧ b2 ≤ 0x9F)
              else isCont b2) ∧ isCont b3 = true then
            Char.ofNat ((b - 0xE0) * 4096 + (b2 - 0x80) * 64 + (b3 - 0x80)) :: utf8DecodeLossyAux fuel rest2
          else Char.ofNat 0xFFFD :: utf8DecodeLossyAux fuel rest
        | _ => Char.ofNat 0xFFFD :: utf8DecodeLossyAux fuel rest
      else if 0xF0 ≤ b ∧ b < 0xF5 then
        match rest with
        | b2 :: b3 :: b4 :: rest2 =>
          if (if b = 0xF0 then decide (0x90 ≤ b2 ∧ b2 ≤ 0xBF)
              else if b = 0xF4 then decide (0x80 ≤ b2 ∧ b2 ≤ 0x8F)
              else isCont b2) ∧ isCont b3 = true ∧ isCont b4 = true then
            Char.ofNat ((b - 0xF0) * 262144 + (b2 - 0x80) * 4096 + (b3 - 0x80) * 64 + (b4 - 0x80)) :: utf8DecodeLossyAux fuel rest2
          else Char.ofNat 0xFFFD :: utf8DecodeLossyAux fuel rest
        | _ => Char.ofNat 0xFFFD :: utf8DecodeLossyAux fuel rest
      else Char.ofNat 0xFFFD :: utf8DecodeLossyAux fuel rest

/-- Lossy UTF-8 decoding of a byte list. -/
def utf8DecodeLossy (bs : List Nat) : List Char :=
  utf8DecodeLossyAux bs.length bs

/-! ## Percent decoding -/

/-- Strict percent-decoding to bytes: a `%` must be followed by two hex
digits; any other character contributes its UTF-8 bytes (ECMA-262 `Decode`,
with the subsequent UTF-8 validation done by `utf8Decode`). -/
def percentDecodeStrictAux : Nat → List Char → Option (List Nat)
  | _, [] => some []
  | 0, _ => none
  | fuel + 1, c :: rest =>
    if c = '%' then
      match rest with
      | c1 :: c2 :: rest2 =>
        match hexDigitVal c1, hexDigitVal c2 with
        | some h, some l => (percentDecodeStrictAux fuel rest2).map (fun bs => (16 * h + l) :: bs)
        | _, _ => none
      | _ => none
    else (percentDecodeStrictAux fuel rest).map (fun bs => utf8EncodeChar c ++ bs)

/-- Model of JavaScript's `decodeURIComponent`: percent-decode strictly, then
UTF-8-decode strictly; a `URIError` throw is modelled as `none`. -/
def decodeURIComponent (s : String) : Option String :=
  match percentDecodeStrictAux s.toList.length s.toList with
  | none => none
  | some bs => (utf8Decode bs).map String.mk

/-- Lenient percent-decoding to bytes: an invalid `%` sequence passes the
`%` through literally (WHATWG percent-decode, used by `URLSearchParams`). -/
def percentDecodeLenientAux : Nat → List Char → List Nat
  | _, [] => []
  | 0, l => List.flatten (l.map utf8EncodeChar)
  | fuel + 1, c :: rest =>
    if c = '%' then
      match rest with
      | c1 :: c2 :: rest2 =>
        match hexDigitVal c1, hexDigitVal c2 with
        | some h, some l => (16 * h + l) :: percentDecodeLenientAux fuel rest2
        | _, _ => utf8EncodeChar '%' ++ percentDecodeLenientAux fuel rest
      | _ => utf8EncodeChar '%' ++ percentDecodeLenientAux fuel rest
    else utf8EncodeChar c ++ percentDecodeLenientAux fuel rest

/-- The `application/x-www-form-urlencoded` value decoding used by
`URLSearchParams`: `+` becomes a space, then lenient percent-decoding, then
lossy UTF-8 decoding.  It never fails. -/
def formUrlDecode (l : List Char) : String :=
  let plusses := l.map (fun c => if c = '+' then ' ' else c)
  String.mk (utf8DecodeLossy (percentDecodeLenientAux plusses.length plusses))

/-! ## WHATWG URL model

Model of `new URL(input)` (no base URL), restricted to what
`parseNWCUri` relies on: `protocol`, `hostname`, `pathname` and
`searchParams`.  The wallet-connect schemes (`nostr…:`) are all
*non-special* schemes in the WHATWG sense, and the model implements the
non-special pipeline: an opaque host that is validated but not decoded, no
path normalisation, no percent-encoding of path/query (the encode sets
only matter for inputs containing characters the claims never exercise).
Special-scheme host canonicalisation and IPv6 hosts are not modelled:
`parseNWCUri` rejects every URI whose scheme does not begin with `nostr`,
so only the generic scheme/shape of such URIs matters here. -/

/-- A C0 control or space (stripped from the ends of URL input). -/
def isC0OrSpace (c : Char) : Bool := c.toNat ≤ 0x20

/-- An ASCII tab or newline (removed everywhere in URL input). -/
def isTabOrNL (c : Char) : Bool := c = '\t' ∨ c = '\n' ∨ c = '\r'

/-- An ASCII letter. -/
def isAsciiAlpha (c : Char) : Bool :=
  ('a' ≤ c ∧ c ≤ 'z') ∨ ('A' ≤ c ∧ c ≤ 'Z')

/-- An ASCII digit. -/
def isAsciiDigit (c : Char) : Bool := '0' ≤ c ∧ c ≤ '9'

/-- A character allowed after the first position of a URL scheme. -/
def isSchemeChar (c : Char) : Bool :=
  isAsciiAlpha c ∨ isAsciiDigit c ∨ c = '+' ∨ c = '-' ∨ c = '.'

/-- ASCII lower-casing (URL schemes are lower-cased). -/
def toLowerChar (c : Char) : Char :=
  if 'A' ≤ c ∧ c ≤ 'Z' then Char.ofNat (c.toNat + 32) else c

/-- A forbidden host code point (its presence in an opaque host makes URL
parsing fail).  `[` and `]` are included: IPv6 hosts are not modelled. -/
def isForbiddenHostChar (c : Char) : Bool :=
  c = Char.ofNat 0 ∨ c = '\t' ∨ c = '\n' ∨ c = '\r' ∨ c = ' ' ∨ c = '#' ∨
  c = '/' ∨ c = ':' ∨ c = '<' ∨ c = '>' ∨ c = '?' ∨ c = '@' ∨ c = '[' ∨
  c = '\\' ∨ c = ']' ∨ c = '^' ∨ c = '|'

/-- Result of `new URL(...)`, restricted to the accessors the code uses. -/
structure URLRec where
  protocol : String
  hostname : String
  port : String
  pathname : String
  search : String
  deriving Repr, DecidableEq

/-- URL input preprocessing: trim C0 controls and spaces from both ends,
remove all ASCII tabs and newlines. -/
def urlPreprocess (l : List Char) : List Char :=
  (((l.dropWhile isC0OrSpace).reverse.dropWhile isC0OrSpace).reverse).filter
    (fun c => ¬ isTabOrNL c)

/-- Parse and lower-case the scheme; returns the scheme (without `:`) and
the remaining input. -/
def parseScheme : List Char → Option (String × List Char)
  | [] => none
  | c :: rest =>
    if isAsciiAlpha c then
      let body := rest.takeWhile isSchemeChar
      match rest.drop body.length with
      | ':' :: rest2 => some (String.mk ((c :: body).map toLowerChar), rest2)
      | _ => none
    else none

/-- Split the authority at the last `@`, keeping the host-and-port part
(userinfo is dropped; `parseNWCUri` never reads it). -/
def hostPortOf (auth : List Char) : List Char :=
  (auth.reverse.takeWhile (fun c => c ≠ '@')).reverse

/-- Split a host-and-port at the first `:` into host and an optional port. -/
def splitHostPort : List Char → List Char × Option (List Char)
  | [] => ([], none)
  | c :: rest =>
    if c = ':' then ([], some rest)
    else
      let (h, p) := splitHostPort rest
      (c :: h, p)

/-- Parse the authority (host and port) of a non-special URL; fails on a
forbidden host code point or a malformed port, as the WHATWG parser does. -/
def parseAuthority (auth : List Char) : Option (String × String) :=
  let hp := hostPortOf auth
  let (host, port?) := splitHostPort hp
  if host.any isForbiddenHostChar then none
  else
    match port? with
    | none => some (String.mk host, "")
    | some p =>
      if p.all isAsciiDigit then
        if p = [] then some (String.mk host, "")
        else
          let n := (String.mk p).toNat!
          if n ≤ 65535 then some (String.mk host, String.mk p) else none
      else none

/-- Model of `new URL(input)` with no base URL; a `TypeError` throw is
modelled as `none`. -/
def parseURL (s : String) : Option URLRec :=
  let l := urlPreprocess s.toList
  match parseScheme l with
  | none => none
  | some (scheme, rest) =>
    match rest with
    | '/' :: '/' :: rest2 =>
      let auth := rest2.takeWhile (fun c => ¬ (c = '/' ∨ c = '?' ∨ c = '#'))
      let rest3 := rest2.drop auth.length
      match parseAuthority auth with
      | none => none
      | some (host, port) =>
        let path := rest3.takeWhile (fun c => ¬ (c = '?' ∨ c = '#'))
        let rest4 := rest3.drop path.length
        let query :=
          match rest4 with
          | '?' :: qs => String.mk (qs.takeWhile (fun c => c ≠ '#'))
          | _ => ""
        some ⟨scheme ++ ":", host, port, String.mk path, query⟩
    | _ =>
      let path := rest.takeWhile (fun c => ¬ (c = '?' ∨ c = '#'))
      let rest4 := rest.drop path.length
      let query :=
        match rest4 with
        | '?' :: qs => String.mk (qs.takeWhile (fun c => c ≠ '#'))
        | _ => ""
      some ⟨scheme ++ ":", "", "", String.mk path, query⟩

/-- Split a query string at `&` separators, skipping empty pieces, as the
`application/x-www-form-urlencoded` parser does. -/
def splitAmpAux : Nat → List Char → List (List Char)
  | _, [] => []
  | 0, l => [l]
  | fuel + 1, l =>
    let piece := l.takeWhile (fun c => c ≠ '&')
    let rest := l.drop piece.length
    match rest with
    | _ :: rest2 =>
      if piece = [] then splitAmpAux fuel rest2
      else piece :: splitAmpAux fuel rest2
    | [] => if piece = [] then [] else [piece]

/-- Name/value pair of one query piece: split at the first `=`, then
form-urlencoded-decode both sides. -/
def pairOfPiece (piece : List Char) : String × String :=
  let name := piece.takeWhile (fun c => c ≠ '=')
  let rest := piece.drop name.length
  match rest with
  | _ :: v => (formUrlDecode name, formUrlDecode v)
  | [] => (formUrlDecode name, "")

/-- Model of `url.searchParams.get(name)`: the first value whose decoded
name matches, or `none` (JavaScript's `null`). -/
def getParam (u : URLRec) (name : String) : Option String :=
  let pairs := (splitAmpAux u.search.toList.length u.search.toList).map pairOfPiece
  (pairs.find? (fun p => p.1 = name)).map (fun p => p.2)

/-! ## The NWC URI parser

Two variants of `parseNWCUri` exist in the repository.  The current one
(the client module that ships with the `serverUrl`-aware proxy) checks
`url.protocol.startsWith('nostr')` and falls back to the hostname and the
pathname for the challenge id; it is embedded as `parseNWCUri`.  The other
variant (`client/src/lib/nostr.ts` as named in the tree) requires the exact
protocol `nostr+walletconnect:` and reads the challenge id only from the
query; it is embedded as `parseNWCUriStrict`. -/

/-- Model of JavaScript's `String.prototype.startsWith` at argument
position 0. -/
def jsStartsWith (s p : String) : Bool := List.isPrefixOf p.toList s.toList

/-- Parsed NWC URI descriptor (interface `NWCUri`). -/
structure NWCUri where
  challengeId : String
  relay : String
  secret : String
  domain : Option String
  deriving Repr, DecidableEq

/-- Model of JavaScript's `pathname.replace('/', '')`: remove the first
occurrence of `/` (and only the first). -/
def removeFirstSlash : List Char → List Char
  | [] => []
  | c :: rest => if c = '/' then rest else c :: removeFirstSlash rest

/-- Challenge-id extraction chain of the code
(`url.searchParams.get('challengeId') || url.hostname`, then the
`pathname.replace('/', '')` fallback when that is still empty). -/
def challengeIdOf (url : URLRec) : String :=
  let challengeId0 :=
    match getParam url "challengeId" with
    | some q => if q = "" then url.hostname else q
    | none => url.hostname
  if challengeId0 = "" then String.mk (removeFirstSlash url.pathname.toList)
  else challengeId0

/-- Embedding of `parseNWCUri` (current variant): scheme must start with
`nostr`; challenge id from the `challengeId` query parameter, else the
hostname, else the pathname with its first slash removed; `relay` and
`secret` from the query; optional `domain`; `relay` and `domain` are passed
through `decodeURIComponent` (a throw is caught and yields `none`). -/
def parseNWCUri (uri : String) : Option NWCUri :=
  match parseURL uri with
  | none => none
  | some url =>
    if ¬ jsStartsWith url.protocol "nostr" then none
    else
      let challengeId := challengeIdOf url
      match getParam url "relay", getParam url "secret" with
      | some relay, some secret =>
        if challengeId = "" ∨ relay = "" ∨ secret = "" then none
        else
          match decodeURIComponent relay with
          | none => none
          | some relayDec =>
            match getParam url "domain" with
            | some d =>
              if d = "" then some ⟨challengeId, relayDec, secret, none⟩
              else
                match decodeURIComponent d with
                | none => none
                | some dDec => some ⟨challengeId, relayDec, secret, some dDec⟩
            | none => some ⟨challengeId, relayDec, secret, none⟩
      | _, _ => none

/-- Embedding of the strict `parseNWCUri` variant
(`client/src/lib/nostr.ts`): exact protocol `nostr+walletconnect:`, all
three fields from query parameters, no fallback and no `domain`. -/
def parseNWCUriStrict (uri : String) : Option NWCUri :=
  match parseURL uri with
  | none => none
  | some url =>
    if url.protocol ≠ "nostr+walletconnect:" then none
    else
      match getParam url "challengeId", getParam url "relay", getParam url "secret" with
      | some challengeId, some relay, some secret =>
        if challengeId = "" ∨ relay = "" ∨ secret = "" then none
        else
          match decodeURIComponent relay with
          | none => none
          | some relayDec => some ⟨challengeId, relayDec, secret, none⟩
      | _, _, _ => none

/-! ## SHA-256

Model of the SHA-256 hash (FIPS 180-4), as used by `nostr-tools`
(`getEventHash`) and by BIP340's tagged hashes.  Words are `Nat`s reduced
modulo `2 ^ 32`; bytes are `Nat`s below 256. -/

/-- Addition modulo `2 ^ 32`. -/
def add32 (a b : Nat) : Nat := (a + b) % 4294967296

/-- Bitwise complement on 32-bit words (inputs are kept below `2 ^ 32`). -/
def not32 (a : Nat) : Nat := 4294967295 - a

/-- Right rotation of a 32-bit word by `k` positions. -/
def rotr32 (k a : Nat) : Nat := (a / 2 ^ k) + (a % 2 ^ k) * 2 ^ (32 - k)

/-- SHA-256 Σ₀. -/
def bigSigma0 (x : Nat) : Nat := rotr32 2 x ^^^ rotr32 13 x ^^^ rotr32 22 x

/-- SHA-256 Σ₁. -/
def bigSigma1 (x : Nat) : Nat := rotr32 6 x ^^^ rotr32 11 x ^^^ rotr32 25 x

/-- SHA-256 σ₀. -/
def smallSigma0 (x : Nat) : Nat := rotr32 7 x ^^^ rotr32 18 x ^^^ x / 2 ^ 3

/-- SHA-256 σ₁. -/
def smallSigma1 (x : Nat) : Nat := rotr32 17 x ^^^ rotr32 19 x ^^^ x / 2 ^ 10

/-- SHA-256 Ch. -/
def chFn (x y z : Nat) : Nat := (x &&& y) ^^^ (not32 x &&& z)

/-- SHA-256 Maj. -/
def majFn (x y z : Nat) : Nat := (x &&& y) ^^^ (x &&& z) ^^^ (y &&& z)

/-- The 64 SHA-256 round constants. -/
def sha256K : List Nat :=
  [1116352408, 1899447441, 3049323471, 3921009573,
   961987163, 1508970993, 2453635748, 2870763221,
   3624381080, 310598401, 607225278, 1426881987,
   1925078388, 2162078206, 2614888103, 3248222580,
   3835390401, 4022224774, 264347078, 604807628,
   770255983, 1249150122, 1555081692, 1996064986,
   2554220882, 2821834349, 2952996808, 3210313671,
   3336571891, 3584528711, 113926993, 338241895,
   666307205, 773529912, 1294757372, 1396182291,
   1695183700, 1986661051, 2177026350, 2456956037,
   2730485921, 2820302411, 3259730800, 3345764771,
   3516065817, 3600352804, 4094571909, 275423344,
   430227734, 506948616, 659060556, 883997877,
   958139571, 1322822218, 1537002063, 1747873779,
   1955562222, 2024104815, 2227730452, 2361852424,
   2428436474, 2756734187, 3204031479, 3329325298]

/-- The SHA-256 initial hash state. -/
def sha256H0 : List Nat :=
  [1779033703, 3144134277, 1013904242, 2773480762,
   1359893119, 2600822924, 528734635, 1541459225]

/-- Big-endian 32-bit words of a byte list (length a multiple of 4). -/
def bytesToWordsBE : List Nat → List Nat
  | b1 :: b2 :: b3 :: b4 :: rest =>
    (((b1 * 256 + b2) * 256 + b3) * 256 + b4) :: bytesToWordsBE rest
  | _ => []

/-- Message-schedule extension: produce `cnt` further words from the last
16 words. -/
def sha256Extend : Nat → List Nat → List Nat
  | 0, _ => []
  | cnt + 1, window =>
    let w := add32 (add32 (window.getD 0 0) (smallSigma0 (window.getD 1 0)))
                   (add32 (window.getD 9 0) (smallSigma1 (window.getD 14 0)))
    w :: sha256Extend cnt (window.drop 1 ++ [w])

/-- One SHA-256 round on the 8-word working state. -/
def sha256Round (st : List Nat) (kw : Nat × Nat) : List Nat :=
  let a := st.getD 0 0
  let b := st.getD 1 0
  let c := st.getD 2 0
  let d := st.getD 3 0
  let e := st.getD 4 0
  let f := st.getD 5 0
  let g := st.getD 6 0
  let h := st.getD 7 0
  let t1 := add32 h (add32 (bigSigma1 e) (add32 (chFn e f g) (add32 kw.1 kw.2)))
  let t2 := add32 (bigSigma0 a) (majFn a b c)
  [add32 t1 t2, a, b, c, add32 d t1, e, f, g]

/-- SHA-256 compression of one 64-byte block into the hash state. -/
def sha256Compress (h : List Nat) (block : List Nat) : List Nat :=
  let ws := bytesToWordsBE block
  let w := ws ++ sha256Extend 48 ws
  let st := (sha256K.zip w).foldl sha256Round h
  List.zipWith add32 h st

/-- Big-endian bytes of a number, fixed width. -/
def natToBytesBE : Nat → Nat → List Nat
  | 0, _ => []
  | len + 1, x => natToBytesBE len (x / 256) ++ [x % 256]

/-- Big-endian number of a byte list. -/
def bytesToNatBE (bs : List Nat) : Nat :=
  bs.foldl (fun acc b => acc * 256 + b) 0

/-- SHA-256 padding: append `0x80`, zeros, and the 64-bit bit length. -/
def sha256Pad (msg : List Nat) : List Nat :=
  let len := msg.length
  let zeros := (64 + 56 - (len + 1) % 64) % 64
  msg ++ 0x80 :: List.replicate zeros 0 ++ natToBytesBE 8 (len * 8)

/-- Split a byte list into 64-byte blocks (fuel-driven). -/
def chunks64 : Nat → List Nat → List (List Nat)
  | 0, _ => []
  | fuel + 1, l =>
    match l with
    | [] => []
    | _ => l.take 64 :: chunks64 fuel (l.drop 64)

/-- SHA-256 digest (32 bytes) of a byte list. -/
def sha256 (msg : List Nat) : List Nat :=
  let padded := sha256Pad msg
  let final := (chunks64 padded.length padded).foldl sha256Compress sha256H0
  List.flatten (final.map (natToBytesBE 4))

/-! ## secp256k1 and BIP340 Schnorr signing

Model of `@noble/curves` `schnorr.getPublicKey` / `schnorr.sign` as used by
`nostr-tools` `getPublicKey` / `finalizeEvent`.  Following BIP340,
`schnorr.sign` takes 32 bytes of *auxiliary randomness*; `nostr-tools`
passes none, so `@noble/curves` draws them from the system RNG on every
invocation.  The shallow embedding makes that ambient randomness an
explicit `aux` argument. -/

/-- The secp256k1 field prime. -/
def secpP : Nat := 0xFFFFFFFFFFFFFFFFFFFFFFFFFFFFFFFFFFFFFFFFFFFFFFFFFFFFFFFEFFFFFC2F

/-- The secp256k1 group order. -/
def secpN : Nat := 0xFFFFFFFFFFFFFFFFFFFFFFFFFFFFFFFEBAAEDCE6AF48A03BBFD25E8CD0364141

/-- x-coordinate of the secp256k1 base point. -/
def secpGx : Nat := 0x79BE667EF9DCBBAC55A06295CE870B07029BFCDB2DCE28D959F2815B16F81798

/-- y-coordinate of the secp256k1 base point. -/
def secpGy : Nat := 0x483ADA7726A3C4655DA4FBFC0E1108A8FD17B448A68554199C47D08FFB10D4B8

/-- Modular exponentiation (fuel-driven binary method). -/
def powModAux : Nat → Nat → Nat → Nat → Nat
  | 0, _, _, m => 1 % m
  | fuel + 1, b, e, m =>
    if e = 0 then 1 % m
    else if e % 2 = 1 then (b * powModAux fuel ((b * b) % m) (e / 2) m) % m
    else powModAux fuel ((b * b) % m) (e / 2) m

/-- Modular exponentiation with enough fuel for 256-bit exponents. -/
def powMod (b e m : Nat) : Nat := powModAux 257 (b % m) e m

/-- Inverse in the secp256k1 field (via Fermat). -/
def invModP (a : Nat) : Nat := powMod a (secpP - 2) secpP

/-- Field subtraction. -/
def subP (a b : Nat) : Nat := (a + (secpP - b % secpP)) % secpP

/-- Field multiplication. -/
def mulP (a b : Nat) : Nat := (a * b) % secpP

/-- A point in Jacobian coordinates; `z = 0` is the point at infinity. -/
structure JPoint where
  x : Nat
  y : Nat
  z : Nat
  deriving Repr, DecidableEq

/-- The point at infinity. -/
def jZero : JPoint := ⟨1, 1, 0⟩

/-- Jacobian point doubling on `y² = x³ + 7`. -/
def jDouble (P : JPoint) : JPoint :=
  if P.z % secpP = 0 ∨ P.y % secpP = 0 then jZero
  else
    let ysq := mulP P.y P.y
    let s := mulP 4 (mulP P.x ysq)
    let m := mulP 3 (mulP P.x P.x)
    let x3 := subP (mulP m m) (mulP 2 s)
    let y3 := subP (mulP m (subP s x3)) (mulP 8 (mulP ysq ysq))
    let z3 := mulP 2 (mulP P.y P.z)
    ⟨x3, y3, z3⟩

/-- Jacobian point addition on `y² = x³ + 7`. -/
def jAdd (P Q : JPoint) : JPoint :=
  if P.z % secpP = 0 then Q
  else if Q.z % secpP = 0 then P
  else
    let z1sq := mulP P.z P.z
    let z2sq := mulP Q.z Q.z
    let u1 := mulP P.x z2sq
    let u2 := mulP Q.x z1sq
    let s1 := mulP P.y (mulP z2sq Q.z)
    let s2 := mulP Q.y (mulP z1sq P.z)
    if u1 = u2 then
      if s1 ≠ s2 then jZero else jDouble P
    else
      let h := subP u2 u1
      let r := subP s2 s1
      let hsq := mulP h h
      let hcu := mulP hsq h
      let x3 := subP (subP (mulP r r) hcu) (mulP 2 (mulP u1 hsq))
      let y3 := subP (mulP r (subP (mulP u1 hsq) x3)) (mulP s1 hcu)
      let z3 := mulP h (mulP P.z Q.z)
      ⟨x3, y3, z3⟩

/-- Scalar multiplication (fuel-driven double-and-add). -/
def jMulAux : Nat → Nat → JPoint → JPoint → JPoint
  | 0, _, acc, _ => acc
  | fuel + 1, k, acc, base =>
    if k = 0 then acc
    else jMulAux fuel (k / 2) (if k % 2 = 1 then jAdd acc base else acc) (jDouble base)

/-- Conversion to affine coordinates; `none` is the point at infinity. -/
def jToAffine (P : JPoint) : Option (Nat × Nat) :=
  if P.z % secpP = 0 then none
  else
    let zi := invModP (P.z % secpP)
    let zi2 := mulP zi zi
    some (mulP P.x zi2, mulP P.y (mulP zi2 zi))

/-- Scalar multiple of the base point, in affine coordinates. -/
def scalarBaseMul (k : Nat) : Option (Nat × Nat) :=
  jToAffine (jMulAux 257 k jZero ⟨secpGx, secpGy, 1⟩)

/-- BIP340 tagged hash: `sha256(sha256(tag) ‖ sha256(tag) ‖ msg)`. -/
def taggedHash (tag : String) (msg : List Nat) : List Nat :=
  let th := sha256 (utf8Encode tag)
  sha256 (th ++ th ++ msg)

/-- Model of `schnorr.getPublicKey`: the 32-byte x-only public key of a
32-byte secret key; a throw on an out-of-range key is modelled as `none`. -/
def schnorrPublicKey (sk : List Nat) : Option (List Nat) :=
  if sk.length = 32 then
    let d := bytesToNatBE sk
    if 1 ≤ d ∧ d < secpN then
      match scalarBaseMul d with
      | some P => some (natToBytesBE 32 P.1)
      | none => none
    else none
  else none

/-- Model of `schnorr.sign msg sk aux` (BIP340 default signing): the
64-byte signature, or `none` where `@noble/curves` throws (bad key, or the
astronomically unlikely zero nonce). -/
def schnorrSign (msg sk aux : List Nat) : Option (List Nat) :=
  if sk.length = 32 then
    let d0 := bytesToNatBE sk
    if 1 ≤ d0 ∧ d0 < secpN then
      match scalarBaseMul d0 with
      | none => none
      | some P =>
        let d := if P.2 % 2 = 0 then d0 else secpN - d0
        let t := d ^^^ bytesToNatBE (taggedHash "BIP0340/aux" aux)
        let rand := taggedHash "BIP0340/nonce" (natToBytesBE 32 t ++ natToBytesBE 32 P.1 ++ msg)
        let kPrime := bytesToNatBE rand % secpN
        if kPrime = 0 then none
        else
          match scalarBaseMul kPrime with
          | none => none
          | some R =>
            let k := if R.2 % 2 = 0 then kPrime else secpN - kPrime
            let e := bytesToNatBE (taggedHash "BIP0340/challenge"
                       (natToBytesBE 32 R.1 ++ natToBytesBE 32 P.1 ++ msg)) % secpN
            some (natToBytesBE 32 R.1 ++ natToBytesBE 32 ((k + e * d) % secpN))
    else none
  else none

/-! ## Bech32 and NIP-19 key encodings

Model of the `bech32` npm package (BIP173) as used by `nostr-tools`
`nip19` for the `nsec`/`npub` encodings.  The npm package's `<<`, `>>`,
`&` word surgery is written with the equivalent `2 ^ k` multiplications,
divisions and `% 32` / `% 256` reductions; byte inputs carry the
`Uint8Array` invariant (each value below 256) as a theorem hypothesis. -/

/-- The bech32 data-character alphabet. -/
def bech32Alphabet : List Char := "qpzry9x8gf2tvdw0s3jn54khce6mua7l".toList

/-- Character of a 5-bit word group. -/
def bech32Char (w : Nat) : Char := bech32Alphabet.getD w 'q'

/-- Value of a bech32 data character (`none` for a character outside the
alphabet, where the npm package fails with "Unknown character"). -/
def bech32Val (c : Char) : Option Nat := bech32Alphabet.findIdx? (fun a => a = c)

/-- One step of the BIP173 checksum feedback register. -/
def polymodStep (pre : Nat) : Nat :=
  let b := pre / 2 ^ 25
  ((pre % 2 ^ 25) * 2 ^ 5) ^^^
    (if b % 2 = 1 then 0x3b6a57b2 else 0) ^^^
    (if b / 2 % 2 = 1 then 0x26508e6d else 0) ^^^
    (if b / 4 % 2 = 1 then 0x1ea119fa else 0) ^^^
    (if b / 8 % 2 = 1 then 0x3d4233dd else 0) ^^^
    (if b / 16 % 2 = 1 then 0x2a1462b3 else 0)

/-- Feed one 5-bit value into the checksum register. -/
def polymodFeed (chk v : Nat) : Nat := polymodStep chk ^^^ v

/-- Checksum state after absorbing the human-readable hrp
(npm `bech32` `hrpChk`). -/
def hrpChk (hrp : String) : Nat :=
  let cs := hrp.toList.map Char.toNat
  let chk := cs.foldl (fun chk c => polymodFeed chk (c / 2 ^ 5)) 1
  cs.foldl (fun chk c => polymodFeed chk (c % 2 ^ 5)) (polymodStep chk)

/-- Whether a hrp character is allowed (npm `bech32` rejects code points
outside 33..126). -/
def validPrefixChar (c : Char) : Bool := 33 ≤ c.toNat ∧ c.toNat ≤ 126

/-- Regroup 8-bit bytes into 5-bit words, padding the tail with zero bits
(npm `bech32` `toWords`, i.e. `convert` with `pad = true`). -/
def toWordsAux : List Nat → Nat → Nat → List Nat
  | [], value, bits => if 0 < bits then [value * 2 ^ (5 - bits) % 32] else []
  | b :: rest, value, bits =>
    let v := value * 2 ^ 8 + b
    let nb := bits + 8
    if 10 ≤ nb then
      (v / 2 ^ (nb - 5) % 32) :: (v / 2 ^ (nb - 10) % 32) :: toWordsAux rest v (nb - 10)
    else
      (v / 2 ^ (nb - 5) % 32) :: toWordsAux rest v (nb - 5)

/-- 5-bit words of a byte list. -/
def toWords (bytes : List Nat) : List Nat := toWordsAux bytes 0 0

/-- Regroup 5-bit words into 8-bit bytes, rejecting incomplete or non-zero
padding (npm `bech32` `fromWords`, i.e. `convert` with `pad = false`). -/
def fromWordsAux : List Nat → Nat → Nat → Option (List Nat)
  | [], value, bits =>
    if 5 ≤ bits then none
    else if value * 2 ^ (8 - bits) % 256 ≠ 0 then none
    else some []
  | w :: rest, value, bits =>
    if 32 ≤ w then none
    else
      let v := value * 2 ^ 5 + w
      let nb := bits + 5
      if 8 ≤ nb then
        (fromWordsAux rest v (nb - 8)).map (fun bs => (v / 2 ^ (nb - 8) % 256) :: bs)
      else fromWordsAux rest v nb

/-- Bytes of a 5-bit word list, or `none` on bad padding. -/
def fromWords (words : List Nat) : Option (List Nat) := fromWordsAux words 0 0

/-- The six checksum words for a hrp and data words. -/
def bech32Checksum (hrp : String) (words : List Nat) : List Nat :=
  let chk0 := words.foldl polymodFeed (hrpChk hrp)
  let chk := (polymodStep (polymodStep (polymodStep (polymodStep (polymodStep (polymodStep chk0)))))) ^^^ 1
  [chk / 2 ^ 25 % 32, chk / 2 ^ 20 % 32, chk / 2 ^ 15 % 32,
   chk / 2 ^ 10 % 32, chk / 2 ^ 5 % 32, chk % 32]

/-- Model of npm `bech32.encode hrp words limit` (throws modelled as
`none`): `hrp ++ "1" ++ data chars ++ checksum chars`. -/
def bech32Encode (hrp : String) (words : List Nat) (limit : Nat) : Option String :=
  if limit < hrp.length + 7 + words.length then none
  else if hrp = "" then none
  else if ¬ hrp.toList.all validPrefixChar then none
  else
    some (hrp ++ "1" ++ String.mk ((words ++ bech32Checksum hrp words).map bech32Char))

/-- ASCII upper-casing (for the bech32 mixed-case check). -/
def toUpperChar (c : Char) : Char :=
  if 'a' ≤ c ∧ c ≤ 'z' then Char.ofNat (c.toNat - 32) else c

/-- Index of the last occurrence of a character. -/
def lastIndexOf (l : List Char) (c : Char) : Option Nat :=
  (l.reverse.findIdx? (fun a => a = c)).map (fun i => l.length - 1 - i)

/-- Map all data characters through the alphabet, feeding the checksum
register along the way (the loop body of npm `bech32.decode`). -/
def bech32ReadWords : List Char → Nat → Option (List Nat × Nat)
  | [], chk => some ([], chk)
  | c :: rest, chk =>
    match bech32Val c with
    | none => none
    | some v => (bech32ReadWords rest (polymodFeed chk v)).map (fun p => (v :: p.1, p.2))

/-- Model of npm `bech32.decode str limit` (throws modelled as `none`):
case checks, split at the last `1`, character mapping, checksum
verification; returns the hrp and the data words without the checksum. -/
def bech32Decode (s : String) (limit : Nat) : Option (String × List Nat) :=
  if s.length < 8 then none
  else if limit < s.length then none
  else
    let lowered := s.toList.map toLowerChar
    if s.toList ≠ lowered ∧ s.toList ≠ s.toList.map toUpperChar then none
    else
      match lastIndexOf lowered '1' with
      | none => none
      | some split =>
        if split = 0 then none
        else
          let hrp := lowered.take split
          let wordChars := lowered.drop (split + 1)
          if wordChars.length < 6 then none
          else if ¬ hrp.all validPrefixChar then none
          else
            match bech32ReadWords wordChars (hrpChk (String.mk hrp)) with
            | none => none
            | some (words, chk) =>
              if chk ≠ 1 then none
              else some (String.mk hrp, words.take (words.length - 6))

/-- Model of `nip19.nsecEncode` (`encodeBytes('nsec', data)`). -/
def nsecEncode (sk : List Nat) : Option String :=
  bech32Encode "nsec" (toWords sk) 5000

/-- Model of the `nsec` path of `nip19.decode`: bech32-decode, require the
`nsec` hrp, regroup to bytes, require exactly 32 of them. -/
def nip19DecodeNsec (s : String) : Option (List Nat) :=
  match bech32Decode s 5000 with
  | none => none
  | some (hrp, words) =>
    if hrp ≠ "nsec" then none
    else
      match fromWords words with
      | none => none
      | some bytes => if bytes.length = 32 then some bytes else none

/-- Model of `nip19.npubEncode` (hex public key to `npub…`). -/
def npubEncode (pkHex : String) : Option String :=
  match hexToBytes pkHex with
  | none => none
  | some bs => bech32Encode "npub" (toWords bs) 5000

/-! ## The key material manager -/

/-- Key record (interface `NostrKeys`). -/
structure NostrKeys where
  publicKey : String
  privateKey : String
  npub : String
  nsec : String
  deriving Repr, DecidableEq

/-- Model of `generateSecretKey` (`@noble/curves`
`utils.randomPrivateKey`): 40 bytes of ambient entropy — made an explicit
argument by the embedding — reduced into the scalar range `[1, n-1]` and
written as 32 big-endian bytes. -/
def generateSecretKey (entropy : List Nat) : List Nat :=
  natToBytesBE 32 (bytesToNatBE entropy % (secpN - 1) + 1)

/-- Model of `nostr-tools` `getPublicKey`: hex of the x-only public key. -/
def getPublicKeyHex (sk : List Nat) : Option String :=
  (schnorrPublicKey sk).map bytesToHex

/-- Build the `NostrKeys` record from private-key bytes: the public key and
all encodings are rederived from the bytes (the shape shared by
`generateKeys` and `importPrivateKey`). -/
def keysOfPriv (sk : List Nat) : Option NostrKeys :=
  match getPublicKeyHex sk with
  | none => none
  | some pub =>
    match npubEncode pub, nsecEncode sk with
    | some npub, some nsec =>
      some ⟨pub, bytesToHex sk, npub, nsec⟩
    | _, _ => none

/-- Embedding of `generateKeys`: generate a secret key from ambient
entropy and derive the public key and both encodings (a throw anywhere is
modelled as `none`). -/
def generateKeys (entropy : List Nat) : Option NostrKeys :=
  keysOfPriv (generateSecretKey entropy)

/-- Embedding of `importPrivateKey`: accept `nsec1…` (checksummed) or raw
hex, require 32 bytes, rederive everything from the decoded bytes; any
throw is caught and yields `null`, modelled as `none`. -/
def importPrivateKey (input : String) : Option NostrKeys :=
  let bytes? :=
    if jsStartsWith input "nsec1" then nip19DecodeNsec input
    else hexToBytes input
  match bytes? with
  | none => none
  | some bytes =>
    if bytes.length ≠ 32 then none
    else keysOfPriv bytes

/-! ## Event building and signing -/

/-- Signed Nostr event (interface `NostrEvent`). -/
structure NostrEvent where
  kind : Nat
  created_at : Nat
  tags : List (List String)
  content : String
  pubkey : String
  id : String
  sig : String
  deriving Repr, DecidableEq

/-- Decimal digit characters of a number (fuel-driven). -/
def natDigits : Nat → Nat → List Char
  | 0, _ => []
  | fuel + 1, x =>
    if x < 10 then [Char.ofNat ('0'.toNat + x)]
    else natDigits fuel (x / 10) ++ [Char.ofNat ('0'.toNat + x % 10)]

/-- Decimal representation of a number (`JSON.stringify` on an integer). -/
def natRepr (x : Nat) : String := String.mk (natDigits (x + 1) x)

/-- JSON string-character escaping (`JSON.stringify`). -/
def jsonEscapeChar (c : Char) : List Char :=
  if c = '"' then ['\\', '"']
  else if c = '\\' then ['\\', '\\']
  else if c = '\x08' then ['\\', 'b']
  else if c = '\x0c' then ['\\', 'f']
  else if c = '\n' then ['\\', 'n']
  else if c = '\r' then ['\\', 'r']
  else if c = '\t' then ['\\', 't']
  else if c.toNat < 0x20 then
    '\\' :: 'u' :: '0' :: '0' :: byteToHex c.toNat
  else [c]

/-- JSON string literal of a string. -/
def jsonStr (s : String) : String :=
  "\"" ++ String.mk (List.flatten (s.toList.map jsonEscapeChar)) ++ "\""

/-- JSON array of string literals. -/
def jsonStrList (l : List String) : String :=
  "[" ++ String.intercalate "," (l.map jsonStr) ++ "]"

/-- JSON array of arrays of string literals (the tags). -/
def jsonTags (tags : List (List String)) : String :=
  "[" ++ String.intercalate "," (tags.map jsonStrList) ++ "]"

/-- Model of `nostr-tools` `serializeEvent`:
`JSON.stringify([0, pubkey, created_at, kind, tags, content])`. -/
def serializeEvent (pubkey : String) (created_at kind : Nat) (tags : List (List String))
    (content : String) : String :=
  "[0," ++ jsonStr pubkey ++ "," ++ natRepr created_at ++ "," ++ natRepr kind ++ "," ++
    jsonTags tags ++ "," ++ jsonStr content ++ "]"

/-- Model of `nostr-tools` `getEventHash`: hex SHA-256 of the serialized
event. -/
def getEventHash (pubkey : String) (created_at kind : Nat) (tags : List (List String))
    (content : String) : List Nat :=
  sha256 (utf8Encode (serializeEvent pubkey created_at kind tags content))

/-- Model of `nostr-tools` `finalizeEvent template sk`: derive the pubkey
from the secret key (overwriting any template value), compute the id and
the BIP340 signature over it; a throw is modelled as `none`.  The 32 bytes
of signing auxiliary randomness are an explicit argument. -/
def finalizeEvent (kind created_at : Nat) (tags : List (List String)) (content : String)
    (sk aux : List Nat) : Option NostrEvent :=
  match schnorrPublicKey sk with
  | none => none
  | some pkBytes =>
    let pubkey := bytesToHex pkBytes
    let idBytes := getEventHash pubkey created_at kind tags content
    match schnorrSign idBytes sk aux with
    | none => none
    | some sigBytes =>
      some ⟨kind, created_at, tags, content, pubkey, bytesToHex idBytes, bytesToHex sigBytes⟩

/-- Embedding of `createAndSignEvent` (current variant: kind 22242, empty
content): build the fixed tag sequence from the descriptor and finalize.
The ambient clock read (`Math.floor(Date.now() / 1000)`) is the explicit
`now` argument, and the signer's ambient randomness is `aux`; the
`publicKeyHex` argument is accepted and then overwritten by
`finalizeEvent`, as in the source. -/
def createAndSignEvent (privateKeyHex publicKeyHex : String) (nwcData : NWCUri)
    (now : Nat) (aux : List Nat) : Option NostrEvent :=
  match hexToBytes privateKeyHex with
  | none => none
  | some skBytes =>
    let _ := publicKeyHex
    finalizeEvent 22242 now
      [["challenge", nwcData.challengeId], ["nwc", nwcData.secret], ["relay", nwcData.relay]]
      "" skBytes aux

/-! ## The submission proxy (`server/routes.ts`)

The `/api/publish-event` handler is embedded as a pure function of the
parsed JSON request body and of the outcome of its single upstream
`fetch`.  The forwarded payload and the target URL are separate
definitions because they are what the handler passes to `fetch`. -/

/-- JSON values, as far as the proxy manipulates them. -/
inductive Json where
  | null : Json
  | bool : Bool → Json
  | num : Int → Json
  | str : String → Json
  | arr : List Json → Json
  | obj : List (String × Json) → Json

/-- JavaScript truthiness of a JSON value. -/
def jsTruthy : Json → Bool
  | Json.null => false
  | Json.bool b => b
  | Json.num n => n ≠ 0
  | Json.str s => s ≠ ""
  | Json.arr _ => true
  | Json.obj _ => true

/-- JavaScript string coercion, as used inside a template literal (only
the cases the proxy can reach). -/
def jsToString : Json → String
  | Json.null => "null"
  | Json.bool b => if b then "true" else "false"
  | Json.num n => if 0 ≤ n then natRepr n.toNat else "-" ++ natRepr (-n).toNat
  | Json.str s => s
  | Json.arr _ => ""
  | Json.obj _ => ""

/-- The default auth server. -/
def defaultServerUrl : String := "https://auth.nostrich.pro"

/-- The `serverUrl` field of the request body
(`const { serverUrl, ...eventData } = req.body`). -/
def serverUrlOf (body : List (String × Json)) : Option Json :=
  (body.find? (fun kv => kv.1 = "serverUrl")).map (fun kv => kv.2)

/-- The rest-spread `eventData`: every own field of the body except
`serverUrl`, in order, with values untouched. -/
def eventDataOf (body : List (String × Json)) : List (String × Json) :=
  body.filter (fun kv => kv.1 ≠ "serverUrl")

/-- The target the handler fetches
(`const targetUrl = serverUrl || 'https://auth.nostrich.pro'`). -/
def targetUrlOf (body : List (String × Json)) : Json :=
  match serverUrlOf body with
  | some v => if jsTruthy v then v else Json.str defaultServerUrl
  | none => Json.str defaultServerUrl

/-- Upstream HTTP response as the handler observes it (`response.ok`,
`response.status`, `await response.text()`). -/
structure UpstreamResponse where
  status : Nat
  body : String
  deriving Repr, DecidableEq

/-- The `ok` flag of a fetch response (status in 200..299). -/
def responseOk (r : UpstreamResponse) : Bool := 200 ≤ r.status ∧ r.status ≤ 299

/-- JavaScript strict equality of a value against a string literal. -/
def jsStrictEqStr : Json → String → Bool
  | Json.str s, t => s = t
  | _, _ => false

/-- The debug hint the handler appends for a custom server
(`isCustomServer = serverUrl && serverUrl !== default`). -/
def debugInfoOf (body : List (String × Json)) : String :=
  match serverUrlOf body with
  | some v =>
    if jsTruthy v ∧ ¬ jsStrictEqStr v defaultServerUrl then
      " (Custom server: " ++ jsToString v ++
        ". This error suggests the custom server doesn't have the challenge ID from the QR code.)"
    else ""
  | none => ""

/-- What the handler replies: an HTTP status and a JSON body. -/
structure HandlerReply where
  status : Nat
  body : Json

/-- Embedding of the `/api/publish-event` handler of `server/routes.ts`,
as a function of the request body and of the upstream fetch outcome
(`Except.error` is a rejected fetch promise, caught by the handler's
`catch`). -/
def publishHandler (body : List (String × Json))
    (upstream : Except String UpstreamResponse) : HandlerReply :=
  match upstream with
  | Except.error msg => ⟨500, Json.obj [("error", Json.str msg)]⟩
  | Except.ok r =>
    if responseOk r then
      ⟨200, Json.obj [("success", Json.bool true), ("response", Json.str r.body)]⟩
    else
      ⟨r.status, Json.obj [("error",
        Json.str ("Auth server error: " ++ r.body ++ debugInfoOf body))]⟩

/-! ## Spec-side comparison definitions -/

/-- Modelled from the spec's words (the extraction chain of claim C3), for
comparison with the code's `challengeIdOf`: the named query parameter if
present and non-empty, otherwise the URI's host component, otherwise the
first path segment with the leading separator stripped. -/
def claimChallengeChain (url : URLRec) : String :=
  let q := match getParam url "challengeId" with
    | some v => v
    | none => ""
  if q ≠ "" then q
  else if url.hostname ≠ "" then url.hostname
  else
    String.mk ((url.pathname.toList.dropWhile (fun c => c = '/')).takeWhile (fun c => c ≠ '/'))

/-! ## Concrete inputs and proof-side measures used by the theorems -/

/-- Concrete signing inputs used by the signing witnesses: the secret key
with scalar 1, a minimal descriptor, and two distinct draws of the
auxiliary randomness. -/
def testSkHex : String :=
  "0000000000000000000000000000000000000000000000000000000000000001"

/-- Minimal descriptor for the signing witnesses. -/
def testDesc : NWCUri := ⟨"a", "r", "s", none⟩

/-- First auxiliary-randomness draw (all zeros). -/
def testAux1 : List Nat := List.replicate 32 0

/-- Second auxiliary-randomness draw (last byte 1). -/
def testAux2 : List Nat := List.replicate 31 0 ++ [1]

/-- Iterated checksum steps. -/
def stepIter : Nat → Nat → Nat
  | 0, chk => chk
  | n + 1, chk => stepIter n (polymodStep chk)

/-- Value of a word list read as a base-32 numeral. -/
def packWords : List Nat → Nat
  | [] => 0
  | c :: rest => c * 32 ^ rest.length + packWords rest


/-! ## Claim C1 -/

/-- C1 (counterexample): the spec's acceptance example uses the `nwc://`
scheme.  The current parser requires the scheme to start with `nostr` and
the strict variant requires exactly `nostr+walletconnect:`, so both reject
the example URI outright instead of returning the claimed descriptor. -/
theorem c1_counterexample :
    parseNWCUri "nwc://abc123?relay=wss%3A%2F%2Fr.example&secret=s1" = none ∧
    parseNWCUriStrict "nwc://abc123?relay=wss%3A%2F%2Fr.example&secret=s1" = none := by
  constructor
  · decide
  · decide

/-- C1 (amended): for the example URI written with the canonical
`nostr+walletconnect` scheme, parsing succeeds and returns challenge id
`abc123` (taken from the host), relay `wss://r.example` (percent-decoded)
and secret `s1`; the original `nwc://` spelling is rejected. -/
theorem c1_amended :
    parseNWCUri "nostr+walletconnect://abc123?relay=wss%3A%2F%2Fr.example&secret=s1" =
      some ⟨"abc123", "wss://r.example", "s1", none⟩ := by
  decide

/-! ## Claim C2 -/

/-- C2 (counterexample): a lookalike scheme sharing only the `nostr` prefix
with the canonical `nostr+walletconnect` scheme is accepted by the current
parser and yields a descriptor, so the strict allow-list the claim states
does not hold. -/
theorem c2_counterexample :
    parseNWCUri "nostrx://abc?relay=r&secret=s" = some ⟨"abc", "r", "s", none⟩ := by
  decide

/-- C2 (amended): the scheme gate of the current parser is a prefix check —
every URI whose scheme does not begin with `nostr` is rejected, but
`nostr`-prefixed lookalikes pass; the strict variant
(`client/src/lib/nostr.ts`) alone implements the exact allow-list, rejecting
every scheme other than `nostr+walletconnect:`. -/
theorem c2_amended :
    (∀ s u, parseURL s = some u → jsStartsWith u.protocol "nostr" = false →
      parseNWCUri s = none) ∧
    (∀ s u, parseURL s = some u → u.protocol ≠ "nostr+walletconnect:" →
      parseNWCUriStrict s = none) := by
  constructor
  · intro s u hu hscheme
    simp [parseNWCUri, hu, hscheme]
  · intro s u hu hscheme
    simp [parseNWCUriStrict, hu, hscheme]

/-- C2 (witness): the amended scheme gate applied to a non-`nostr` scheme
and to a lookalike scheme. -/
theorem c2_witness :
    parseNWCUri "http://x?relay=r&secret=s" = none ∧
    parseNWCUriStrict "nostrx://abc?challengeId=a&relay=r&secret=s" = none := by
  constructor
  · exact c2_amended.1 _ ⟨"http:", "x", "", "", "relay=r&secret=s"⟩ (by decide) (by decide)
  · exact c2_amended.2 _ ⟨"nostrx:", "abc", "", "", "challengeId=a&relay=r&secret=s"⟩
      (by decide) (by decide)

/-! ## Claim C3 -/

/-- C3 (counterexample): for a URI whose path holds several segments, the
code's fallback removes only the first slash of the whole pathname instead
of taking the first path segment: the accepted URI below gets challenge id
`abc/def`, while the claim's chain would produce `abc`. -/
theorem c3_counterexample :
    parseNWCUri "nostr+walletconnect:///abc/def?relay=r&secret=s" =
      some ⟨"abc/def", "r", "s", none⟩ ∧
    (parseURL "nostr+walletconnect:///abc/def?relay=r&secret=s").map claimChallengeChain =
      some "abc" ∧
    ("abc/def" : String) ≠ "abc" := by
  refine ⟨by decide, by decide, by decide⟩

/-! ## Inversion of a successful parse, and non-emptiness of decoding -/

/-- Everything a successful `parseNWCUri` guarantees about how the
descriptor was extracted from the URL record. -/
theorem parseNWCUri_inv (s : String) (u : URLRec) (d : NWCUri)
    (hu : parseURL s = some u) (h : parseNWCUri s = some d) :
    ∃ relay secret, jsStartsWith u.protocol "nostr" = true ∧
      getParam u "relay" = some relay ∧ getParam u "secret" = some secret ∧
      challengeIdOf u ≠ "" ∧ relay ≠ "" ∧ secret ≠ "" ∧
      d.challengeId = challengeIdOf u ∧
      decodeURIComponent relay = some d.relay ∧
      d.secret = secret := by
  simp only [parseNWCUri, hu] at h
  by_cases hsw : jsStartsWith u.protocol "nostr"
  · rw [if_neg (by simp [hsw])] at h
    split at h
    · rename_i relay secret hr hsec
      split at h
      · cases h
      · rename_i hguard
        push_neg at hguard
        split at h
        · cases h
        · rename_i rd hdec
          split at h
          · rename_i dv hdom
            split at h
            · cases h
              exact ⟨relay, secret, hsw, hr, hsec, hguard.1, hguard.2.1, hguard.2.2,
                rfl, hdec, rfl⟩
            · split at h
              · cases h
              · rename_i ddec hdd
                cases h
                exact ⟨relay, secret, hsw, hr, hsec, hguard.1, hguard.2.1, hguard.2.2,
                  rfl, hdec, rfl⟩
          · cases h
            exact ⟨relay, secret, hsw, hr, hsec, hguard.1, hguard.2.1, hguard.2.2,
              rfl, hdec, rfl⟩
    · cases h
  · simp [hsw] at h

/-- UTF-8 encoding of a character is never empty. -/
theorem utf8EncodeChar_ne_nil (c : Char) : utf8EncodeChar c ≠ [] := by
  unfold utf8EncodeChar
  by_cases h1 : c.toNat < 128 <;> by_cases h2 : c.toNat < 2048 <;>
    by_cases h3 : c.toNat < 65536 <;> simp [h1, h2, h3]

/-- Strict percent-decoding of a non-empty character list yields non-empty
bytes. -/
theorem percentDecodeStrictAux_ne_nil (fuel : Nat) (c : Char) (rest : List Char)
    (bs : List Nat) (h : percentDecodeStrictAux fuel (c :: rest) = some bs) : bs ≠ [] := by
  cases fuel with
  | zero => simp [percentDecodeStrictAux] at h
  | succ fuel =>
    simp only [percentDecodeStrictAux] at h
    split at h
    · split at h
      · split at h
        · cases hrec : percentDecodeStrictAux fuel _ <;> rw [hrec] at h <;> simp at h
          exact fun hc => List.cons_ne_nil _ _ (hc ▸ h)
        · cases h
      · cases h
    · cases hrec : percentDecodeStrictAux fuel rest <;> rw [hrec] at h <;> simp at h
      intro hc
      rw [hc] at h
      simp at h
      exact utf8EncodeChar_ne_nil c h.1

/-- Strict UTF-8 decoding of a non-empty byte list yields non-empty text. -/
theorem utf8DecodeAux_ne_nil (fuel : Nat) (b : Nat) (rest : List Nat)
    (cs : List Char) (h : utf8DecodeAux fuel (b :: rest) = some cs) : cs ≠ [] := by
  cases fuel with
  | zero => simp [utf8DecodeAux] at h
  | succ fuel =>
    simp only [utf8DecodeAux] at h
    repeat' split at h
    all_goals try (cases h)
    all_goals
      (cases hrec : utf8DecodeAux fuel _ <;> rw [hrec] at h <;> simp at h
       exact fun hc => List.cons_ne_nil _ _ (hc ▸ h))

/-- Percent-decoding (JavaScript `decodeURIComponent`) of a non-empty
string, when it succeeds, yields a non-empty string. -/
theorem decodeURIComponent_ne_empty (r t : String) (hr : r ≠ "")
    (h : decodeURIComponent r = some t) : t ≠ "" := by
  simp only [decodeURIComponent] at h
  cases hl : r.toList with
  | nil =>
    exact absurd (by cases r with | mk l => cases l <;> simp_all) hr
  | cons c rest =>
    rw [hl] at h
    cases hp : percentDecodeStrictAux (c :: rest).length (c :: rest) with
    | none => rw [hp] at h; cases h
    | some bs =>
      rw [hp] at h
      have hbs : bs ≠ [] := percentDecodeStrictAux_ne_nil _ _ _ _ hp
      cases hbsl : bs with
      | nil => exact absurd hbsl hbs
      | cons b bs2 =>
        subst hbsl
        simp only [utf8Decode] at h
        cases hd : utf8DecodeAux (b :: bs2).length (b :: bs2) with
        | none => rw [hd] at h; cases h
        | some cs =>
          rw [hd] at h
          cases h
          have hcs : cs ≠ [] := utf8DecodeAux_ne_nil _ _ _ _ hd
          intro hcontra
          apply hcs
          cases hcon2 : cs with
          | nil => rfl
          | cons a l => rw [hcon2] at hcontra; simp [String.ext_iff] at hcontra

/-! ## Claim C3 (amended) -/

/-- C3 (amended): for every URI accepted by the current parser, the
challenge id is the code's chain: the named query parameter if present and
non-empty, otherwise the host, otherwise the whole pathname with its first
slash character removed (not just the first segment); and when that chain
is empty the parse fails. -/
theorem c3_amended :
    (∀ s u d, parseURL s = some u → parseNWCUri s = some d →
      d.challengeId = challengeIdOf u) ∧
    (∀ s u, parseURL s = some u → challengeIdOf u = "" → parseNWCUri s = none) := by
  constructor
  · intro s u d hu h
    obtain ⟨relay, secret, _, _, _, _, _, _, hcid, _, _⟩ := parseNWCUri_inv s u d hu h
    exact hcid
  · intro s u hu hcid
    simp only [parseNWCUri, hu]
    by_cases hsw : jsStartsWith u.protocol "nostr"
    · rw [if_neg (by simp [hsw])]
      cases getParam u "relay" <;> cases getParam u "secret" <;> simp [hcid]
    · simp [hsw]

/-- C3 (witness): the amended chain evaluated on a URI whose challenge id
comes from the pathname fallback, and the empty-chain rejection on a URI
with no challenge id anywhere. -/
theorem c3_witness :
    (parseNWCUri "nostr+walletconnect:///abc/def?relay=r&secret=s").map NWCUri.challengeId =
      some (challengeIdOf ⟨"nostr+walletconnect:", "", "", "/abc/def", "relay=r&secret=s"⟩) ∧
    parseNWCUri "nostr+walletconnect://?relay=r&secret=s" = none := by
  constructor
  · have h1 : parseNWCUri "nostr+walletconnect:///abc/def?relay=r&secret=s" =
        some ⟨"abc/def", "r", "s", none⟩ := by decide
    have h2 := c3_amended.1 "nostr+walletconnect:///abc/def?relay=r&secret=s"
      ⟨"nostr+walletconnect:", "", "", "/abc/def", "relay=r&secret=s"⟩
      ⟨"abc/def", "r", "s", none⟩ (by decide) h1
    rw [h1]
    simpa using h2
  · exact c3_amended.2 "nostr+walletconnect://?relay=r&secret=s"
      ⟨"nostr+walletconnect:", "", "", "", "relay=r&secret=s"⟩ (by decide) (by decide)

/-! ## Claim C6 -/

/-- C6 (counterexample): a challenge id taken from the URI's host is used
verbatim, not percent-decoded — the accepted URI below keeps `a%41b` as its
challenge id even though its percent-decoding (`aAb`) exists, so not every
percent-encoded extracted value is decoded before validation. -/
theorem c6_counterexample :
    parseNWCUri "nostr+walletconnect://a%41b?relay=r&secret=s" =
      some ⟨"a%41b", "r", "s", none⟩ ∧
    decodeURIComponent "a%41b" = some "aAb" ∧
    ("a%41b" : String) ≠ "aAb" := by
  refine ⟨by decide, by decide, by decide⟩

/-- C6 (amended): query-sourced values are form-urlencoded-decoded by
parameter extraction; `relay` additionally goes through
`decodeURIComponent` — whose failure makes the parse fail — and its decoded
form is what the descriptor carries, while `secret` is carried exactly as
extracted from the query; a challenge id taken from the host or path is
used verbatim without percent-decoding. -/
theorem c6_amended :
    (∀ s u relay, parseURL s = some u → getParam u "relay" = some relay →
      decodeURIComponent relay = none → parseNWCUri s = none) ∧
    (∀ s u d relay, parseURL s = some u → parseNWCUri s = some d →
      getParam u "relay" = some relay → decodeURIComponent relay = some d.relay) ∧
    (∀ s u d secret, parseURL s = some u → parseNWCUri s = some d →
      getParam u "secret" = some secret → d.secret = secret) := by
  refine ⟨?_, ?_, ?_⟩
  · intro s u relay hu hrelay hdec
    simp only [parseNWCUri, hu]
    by_cases hsw : jsStartsWith u.protocol "nostr"
    · rw [if_neg (by simp [hsw])]
      rw [hrelay]
      cases getParam u "secret" <;> simp [hdec]
    · simp [hsw]
  · intro s u d relay hu h hrelay
    obtain ⟨relay2, secret2, _, hr2, _, _, _, _, _, hdec2, _⟩ := parseNWCUri_inv s u d hu h
    rw [hrelay] at hr2
    cases hr2
    exact hdec2
  · intro s u d secret hu h hsec
    obtain ⟨relay2, secret2, _, _, hs2, _, _, _, _, _, hdsec⟩ := parseNWCUri_inv s u d hu h
    rw [hsec] at hs2
    cases hs2
    exact hdsec

/-- C6 (witness): decode-failure propagation on a relay that form-decodes
to a bare `%`, and the decoded relay / verbatim secret of the canonical
example. -/
theorem c6_witness :
    parseNWCUri "nostr+walletconnect://abc?relay=%25&secret=s" = none ∧
    decodeURIComponent "wss://r.example" = some "wss://r.example" ∧
    ("s1" : String) = "s1" := by
  refine ⟨?_, ?_, ?_⟩
  · exact c6_amended.1 "nostr+walletconnect://abc?relay=%25&secret=s"
      ⟨"nostr+walletconnect:", "abc", "", "", "relay=%25&secret=s"⟩ "%"
      (by decide) (by decide) (by decide)
  · exact c6_amended.2.1 "nostr+walletconnect://abc123?relay=wss%3A%2F%2Fr.example&secret=s1"
      ⟨"nostr+walletconnect:", "abc123", "", "", "relay=wss%3A%2F%2Fr.example&secret=s1"⟩
      ⟨"abc123", "wss://r.example", "s1", none⟩ "wss://r.example"
      (by decide) (by decide) (by decide)
  · exact c6_amended.2.2 "nostr+walletconnect://abc123?relay=wss%3A%2F%2Fr.example&secret=s1"
      ⟨"nostr+walletconnect:", "abc123", "", "", "relay=wss%3A%2F%2Fr.example&secret=s1"⟩
      ⟨"abc123", "wss://r.example", "s1", none⟩ "s1"
      (by decide) (by decide) (by decide)

/-! ## Claim C7 -/

/-- C7: for every input string, the parser (a total function whose caught
exceptions are the `none` result) returns either `none` or a descriptor
whose three required fields are all non-empty. -/
theorem c7_parser_total (s : String) (d : NWCUri) (h : parseNWCUri s = some d) :
    d.challengeId ≠ "" ∧ d.relay ≠ "" ∧ d.secret ≠ "" := by
  cases hu : parseURL s with
  | none => simp [parseNWCUri, hu] at h
  | some u =>
    obtain ⟨relay, secret, _, _, _, hcid, hrne, hsne, hdcid, hdec, hdsec⟩ :=
      parseNWCUri_inv s u d hu h
    refine ⟨?_, ?_, ?_⟩
    · rw [hdcid]; exact hcid
    · exact decodeURIComponent_ne_empty relay d.relay hrne hdec
    · rw [hdsec]; exact hsne

/-- C7 (witness): the guarantee evaluated at the canonical example URI. -/
theorem c7_witness :
    ("abc123" : String) ≠ "" ∧ ("wss://r.example" : String) ≠ "" ∧ ("s1" : String) ≠ "" :=
  c7_parser_total "nostr+walletconnect://abc123?relay=wss%3A%2F%2Fr.example&secret=s1"
    ⟨"abc123", "wss://r.example", "s1", none⟩ (by decide)

/-! ## Claim C5 -/

/-- C5 (counterexample): on an upstream HTTP 400 whose body is
`{"error":"bad challenge"}`, the proxy replies with status 400 but its
error message is the decorated raw body
(`Auth server error: {"error":"bad challenge"}`), not the server's bare
error text `bad challenge`; the `Auth server error: ` decoration is added
even though the default endpoint was used. -/
theorem c5_counterexample :
    publishHandler [] (Except.ok ⟨400, "\x7b\"error\":\"bad challenge\"\x7d"⟩) =
      ⟨400, Json.obj [("error",
        Json.str "Auth server error: \x7b\"error\":\"bad challenge\"\x7d")]⟩ ∧
    ("Auth server error: \x7b\"error\":\"bad challenge\"\x7d" : String) ≠ "bad challenge" := by
  refine ⟨rfl, by decide⟩

/-- C5 (amended): on every non-ok upstream response the proxy propagates
the upstream status code unchanged and replies with the fixed
`Auth server error: ` prefix, the upstream body verbatim, and a
custom-server hint that is empty whenever no `serverUrl` was supplied. -/
theorem c5_amended (body : List (String × Json)) (r : UpstreamResponse)
    (hok : responseOk r = false) :
    publishHandler body (Except.ok r) =
      ⟨r.status, Json.obj [("error",
        Json.str ("Auth server error: " ++ r.body ++ debugInfoOf body))]⟩ ∧
    (serverUrlOf body = none → debugInfoOf body = "") := by
  constructor
  · simp [publishHandler, hok]
  · intro hnone; simp [debugInfoOf, hnone]

/-- C5 (witness): the amended reply shape evaluated on a concrete
rejection. -/
theorem c5_witness :
    publishHandler [] (Except.ok ⟨502, "boom"⟩) =
      ⟨502, Json.obj [("error",
        Json.str ("Auth server error: " ++ "boom" ++ debugInfoOf []))]⟩ ∧
    debugInfoOf ([] : List (String × Json)) = "" :=
  ⟨(c5_amended [] ⟨502, "boom"⟩ (by decide)).1,
   (c5_amended [] ⟨502, "boom"⟩ (by decide)).2 rfl⟩

/-! ## Claim C10 -/

/-- C10 (counterexample): a request body carrying `serverUrl: ""` has the
field present, yet the handler's target is the default endpoint, not the
supplied (empty) value — `serverUrl || default` tests truthiness, not
presence. -/
theorem c10_counterexample :
    serverUrlOf [("serverUrl", Json.str ""), ("id", Json.str "x")] = some (Json.str "") ∧
    targetUrlOf [("serverUrl", Json.str ""), ("id", Json.str "x")] =
      Json.str defaultServerUrl ∧
    Json.str defaultServerUrl ≠ Json.str "" := by
  refine ⟨rfl, rfl, fun h => absurd (Json.str.inj h) (by decide)⟩

/-- C10 (amended): the forwarded payload is the received body with exactly
the `serverUrl` field removed — membership in the forwarded payload is
membership in the body minus that key, and the payload is a sublist of the
body (fields kept in order, values untouched); the target URL is the
`serverUrl` value when it is present and truthy, and the default endpoint
when it is absent or falsy. -/
theorem c10_amended :
    (∀ (body : List (String × Json)) kv,
      kv ∈ eventDataOf body ↔ kv ∈ body ∧ kv.1 ≠ "serverUrl") ∧
    (∀ (body : List (String × Json)), (eventDataOf body).Sublist body) ∧
    (∀ (body : List (String × Json)) v, serverUrlOf body = some v → jsTruthy v = true →
      targetUrlOf body = v) ∧
    (∀ (body : List (String × Json)) v, serverUrlOf body = some v → jsTruthy v = false →
      targetUrlOf body = Json.str defaultServerUrl) ∧
    (∀ (body : List (String × Json)), serverUrlOf body = none →
      targetUrlOf body = Json.str defaultServerUrl) := by
  refine ⟨?_, ?_, ?_, ?_, ?_⟩
  · intro body kv
    simp [eventDataOf, List.mem_filter]
  · intro body
    exact List.filter_sublist _
  · intro body v hsv htr
    simp [targetUrlOf, hsv, htr]
  · intro body v hsv htr
    simp [targetUrlOf, hsv, htr]
  · intro body hsv
    simp [targetUrlOf, hsv]

/-- C10 (witness): forwarding and target selection evaluated on concrete
bodies. -/
theorem c10_witness :
    (("id", Json.str "1") ∈
      eventDataOf [("id", Json.str "1"), ("serverUrl", Json.str "https://alt.example")]) ∧
    targetUrlOf [("id", Json.str "1"), ("serverUrl", Json.str "https://alt.example")] =
      Json.str "https://alt.example" ∧
    targetUrlOf [("serverUrl", Json.null)] = Json.str defaultServerUrl ∧
    targetUrlOf ([] : List (String × Json)) = Json.str defaultServerUrl := by
  refine ⟨?_, ?_, ?_, ?_⟩
  · exact (c10_amended.1 _ _).mpr ⟨by simp, by decide⟩
  · exact c10_amended.2.2.1 _ (Json.str "https://alt.example") rfl (by decide)
  · exact c10_amended.2.2.2.1 _ Json.null rfl rfl
  · exact c10_amended.2.2.2.2 _ rfl

/-! ## Claims C8 and C4 -/

/-- C8: every event the signer produces carries exactly the tag sequence
`challenge`, then the secret-bearing `nwc` tag, then `relay`, with the
descriptor's values, in this order and with nothing else. -/
theorem c8_tag_order (privHex pubHex : String) (d : NWCUri) (now : Nat) (aux : List Nat)
    (e : NostrEvent) (h : createAndSignEvent privHex pubHex d now aux = some e) :
    e.tags = [["challenge", d.challengeId], ["nwc", d.secret], ["relay", d.relay]] := by
  simp only [createAndSignEvent, finalizeEvent] at h
  split at h
  · cases h
  · split at h
    · cases h
    · split at h
      · cases h
      · cases h
        rfl

set_option maxRecDepth 1000000 in
/-- C8 (witness): the tag order on a concretely signed event. -/
theorem c8_witness :
    ∃ e, createAndSignEvent testSkHex "ignored" testDesc 0 testAux1 = some e ∧
      e.tags = [["challenge", "a"], ["nwc", "s"], ["relay", "r"]] := by
  cases h : createAndSignEvent testSkHex "ignored" testDesc 0 testAux1 with
  | none =>
    have hs : (createAndSignEvent testSkHex "ignored" testDesc 0 testAux1).isSome = true := by
      rfl
    rw [h] at hs
    simp at hs
  | some e =>
    exact ⟨e, rfl, c8_tag_order testSkHex "ignored" testDesc 0 testAux1 e h⟩

set_option maxRecDepth 1000000 in
/-- C4 (counterexample): with the key pair, descriptor and timestamp all
fixed, two invocations of the signer differing only in the ambient
auxiliary randomness (which `@noble/curves` draws fresh on every call)
produce different signatures — while the id does coincide — so the output
is not byte-for-byte identical across invocations. -/
theorem c4_counterexample :
    ((createAndSignEvent testSkHex "ignored" testDesc 0 testAux1).map NostrEvent.sig ≠
      (createAndSignEvent testSkHex "ignored" testDesc 0 testAux2).map NostrEvent.sig) ∧
    ((createAndSignEvent testSkHex "ignored" testDesc 0 testAux1).map NostrEvent.id =
      (createAndSignEvent testSkHex "ignored" testDesc 0 testAux2).map NostrEvent.id) := by
  constructor
  · decide
  · decide

/-- C4 (amended): with fixed key pair, descriptor and timestamp, every
field of the signed event except the signature — in particular the id — is
identical across two invocations, whatever auxiliary randomness each
invocation draws; the BIP340 signature itself uses that fresh randomness
and is not reproducible across invocations. -/
theorem c4_amended (privHex pubHex : String) (d : NWCUri) (now : Nat) (aux1 aux2 : List Nat)
    (e1 e2 : NostrEvent)
    (h1 : createAndSignEvent privHex pubHex d now aux1 = some e1)
    (h2 : createAndSignEvent privHex pubHex d now aux2 = some e2) :
    e1.id = e2.id ∧ e1.kind = e2.kind ∧ e1.created_at = e2.created_at ∧
    e1.tags = e2.tags ∧ e1.content = e2.content ∧ e1.pubkey = e2.pubkey := by
  simp only [createAndSignEvent, finalizeEvent] at h1 h2
  split at h1
  · cases h1
  · rename_i sk hsk
    simp only [hsk] at h2
    split at h1
    · cases h1
    · rename_i pkB hpk
      simp only [hpk] at h2
      split at h1
      · cases h1
      · split at h2
        · cases h2
        · cases h1
          cases h2
          exact ⟨rfl, rfl, rfl, rfl, rfl, rfl⟩

set_option maxRecDepth 1000000 in
/-- C4 (witness): two concrete invocations with different auxiliary
randomness whose ids the amended theorem proves equal. -/
theorem c4_witness :
    ∃ e1 e2, createAndSignEvent testSkHex "ignored" testDesc 0 testAux1 = some e1 ∧
      createAndSignEvent testSkHex "ignored" testDesc 0 testAux2 = some e2 ∧
      e1.id = e2.id := by
  cases h1 : createAndSignEvent testSkHex "ignored" testDesc 0 testAux1 with
  | none =>
    have hs : (createAndSignEvent testSkHex "ignored" testDesc 0 testAux1).isSome = true := by
      rfl
    rw [h1] at hs
    simp at hs
  | some e1 =>
    cases h2 : createAndSignEvent testSkHex "ignored" testDesc 0 testAux2 with
    | none =>
      have hs : (createAndSignEvent testSkHex "ignored" testDesc 0 testAux2).isSome = true := by
        rfl
      rw [h2] at hs
      simp at hs
    | some e2 =>
      exact ⟨e1, e2, rfl, rfl,
        (c4_amended testSkHex "ignored" testDesc 0 testAux1 testAux2 e1 e2 h1 h2).1⟩

/-! ## Claim C9: supporting development -/

theorem xor_div_pow (a b k : Nat) : (a ^^^ b) / 2 ^ k = a / 2 ^ k ^^^ b / 2 ^ k := by
  induction k with
  | zero => simp
  | succ k ih =>
    rw [Nat.pow_succ, ← Nat.div_div_eq_div_mul, ← Nat.div_div_eq_div_mul,
      ← Nat.div_div_eq_div_mul, ih, Nat.xor_div_two]

theorem xor_mod_pow (a b k : Nat) : (a ^^^ b) % 2 ^ k = a % 2 ^ k ^^^ b % 2 ^ k := by
  rw [← Nat.and_pow_two_sub_one_eq_mod, ← Nat.and_pow_two_sub_one_eq_mod,
    ← Nat.and_pow_two_sub_one_eq_mod, Nat.and_xor_distrib_right]

theorem xor_mul_pow (a b k : Nat) : (a ^^^ b) * 2 ^ k = a * 2 ^ k ^^^ b * 2 ^ k := by
  apply Nat.eq_of_testBit_eq
  intro i
  rw [← Nat.shiftLeft_eq, ← Nat.shiftLeft_eq, ← Nat.shiftLeft_eq]
  simp only [Nat.testBit_shiftLeft, Nat.testBit_xor]
  cases hik : decide (i ≥ k) <;> simp

theorem xor_disjoint_add (a b k : Nat) (hb : b < 2 ^ k) : a * 2 ^ k ^^^ b = a * 2 ^ k + b := by
  rw [Nat.mul_comm, Nat.mul_add_lt_is_or hb]
  apply Nat.eq_of_testBit_eq
  intro i
  simp only [Nat.testBit_xor, Nat.testBit_or, Nat.testBit_mul_pow_two]
  rcases Nat.lt_or_ge i k with h | h
  · simp [Nat.not_le_of_lt h]
  · have hbi : b < 2 ^ i := lt_of_lt_of_le hb (Nat.pow_le_pow_right (by norm_num) h)
    simp [h, Nat.testBit_lt_two_pow hbi]

theorem xor_left_comm (a b c : Nat) : a ^^^ (b ^^^ c) = b ^^^ (a ^^^ c) := by
  rw [← Nat.xor_assoc, Nat.xor_comm a b, Nat.xor_assoc]

theorem polymodStep_xor (chk v : Nat) (hv : v < 2 ^ 25) :
    polymodStep (chk ^^^ v) = polymodStep chk ^^^ v * 2 ^ 5 := by
  unfold polymodStep
  rw [xor_div_pow, Nat.div_eq_of_lt hv, Nat.xor_zero, xor_mod_pow, Nat.mod_eq_of_lt hv,
    xor_mul_pow]
  simp only [Nat.xor_assoc]
  rw [xor_left_comm (v * 2 ^ 5)]
  rw [xor_left_comm (v * 2 ^ 5)]
  rw [xor_left_comm (v * 2 ^ 5)]
  rw [xor_left_comm (v * 2 ^ 5)]
  rw [Nat.xor_comm (v * 2 ^ 5)]

theorem polymodStep_lt (x : Nat) : polymodStep x < 2 ^ 30 := by
  unfold polymodStep
  have h1 : x % 2 ^ 25 * 2 ^ 5 < 2 ^ 30 := by
    have := Nat.mod_lt x (y := 2 ^ 25) (by norm_num)
    omega
  refine Nat.xor_lt_two_pow (Nat.xor_lt_two_pow (Nat.xor_lt_two_pow (Nat.xor_lt_two_pow
    (Nat.xor_lt_two_pow h1 ?_) ?_) ?_) ?_) ?_ <;> split <;> norm_num

theorem packWords_lt (cs : List Nat) (h : ∀ c ∈ cs, c < 32) :
    packWords cs < 32 ^ cs.length := by
  induction cs with
  | nil => simp [packWords]
  | cons c rest ih =>
    have hc : c < 32 := h c (by simp)
    have hr := ih (fun x hx => h x (by simp [hx]))
    simp only [packWords, List.length_cons, pow_succ]
    calc c * 32 ^ rest.length + packWords rest
        ≤ 31 * 32 ^ rest.length + packWords rest := by
          have : c ≤ 31 := by omega
          exact Nat.add_le_add_right (Nat.mul_le_mul_right _ this) _
      _ < 31 * 32 ^ rest.length + 32 ^ rest.length := by omega
      _ = 32 ^ rest.length * 32 := by ring

theorem stepIter_xor (n : Nat) (hn : n ≤ 6) :
    ∀ x v, v < 2 ^ (30 - 5 * n) → stepIter n (x ^^^ v) = stepIter n x ^^^ v * 32 ^ n := by
  induction n with
  | zero => intro x v _; simp [stepIter]
  | succ n ih =>
    intro x v hv
    have hv25 : v < 2 ^ 25 := lt_of_lt_of_le hv (Nat.pow_le_pow_right (by norm_num) (by omega))
    simp only [stepIter]
    rw [polymodStep_xor x v hv25]
    rw [ih (by omega) (polymodStep x) (v * 2 ^ 5) (by
      have : v * 2 ^ 5 < 2 ^ (30 - 5 * n) := by
        have h2 : 2 ^ (30 - 5 * (n+1)) * 2 ^ 5 ≤ 2 ^ (30 - 5 * n) := by
          rw [← pow_add]
          exact Nat.pow_le_pow_right (by norm_num) (by omega)
        calc v * 2 ^ 5 < 2 ^ (30 - 5 * (n+1)) * 2 ^ 5 :=
              Nat.mul_lt_mul_of_pos_right hv (by norm_num)
          _ ≤ 2 ^ (30 - 5 * n) := h2
      exact this)]
    congr 1
    show v * 2 ^ 5 * 32 ^ n = v * 32 ^ (n + 1)
    rw [pow_succ]
    ring

theorem foldl_feed_linear (cs : List Nat) :
    ∀ chk, (∀ c ∈ cs, c < 32) → cs.length ≤ 6 →
      List.foldl polymodFeed chk cs = stepIter cs.length chk ^^^ packWords cs := by
  induction cs with
  | nil => intro chk _ _; simp [stepIter, packWords]
  | cons c rest ih =>
    intro chk h hlen
    have hc : c < 32 := h c (by simp)
    simp only [List.foldl_cons, List.length_cons]
    rw [show polymodFeed chk c = polymodStep chk ^^^ c from rfl]
    rw [ih _ (fun x hx => h x (by simp [hx])) (by simpa using Nat.le_of_succ_le hlen)]
    have hn5 : rest.length ≤ 5 := by simpa using hlen
    rw [stepIter_xor rest.length (by omega) (polymodStep chk) c (by
      have h5 : (2 : Nat) ^ 5 ≤ 2 ^ (30 - 5 * rest.length) :=
        Nat.pow_le_pow_right (by norm_num) (by omega)
      have h32 : (2 : Nat) ^ 5 = 32 := by norm_num
      omega)]
    rw [Nat.xor_assoc]
    have h32 : (32 : Nat) ^ rest.length = 2 ^ (5 * rest.length) := by
      rw [show (32 : Nat) = 2 ^ 5 by norm_num, ← pow_mul]
    have hpack : packWords rest < 2 ^ (5 * rest.length) := by
      rw [← h32]; exact packWords_lt _ (fun x hx => h x (by simp [hx]))
    show stepIter rest.length (polymodStep chk) ^^^ (c * 32 ^ rest.length ^^^ packWords rest) = _
    rw [h32, xor_disjoint_add c (packWords rest) _ hpack]
    simp [packWords, stepIter, h32]

theorem from_to_nil (bits vt vf : Nat) (hb : bits < 5) :
    fromWordsAux (toWordsAux [] vt bits) vf ((8 - bits) % 8) =
      if bits = 0 then some ([] : List Nat)
      else some [vf % 2 ^ ((8 - bits) % 8) * 2 ^ bits + vt % 2 ^ bits] := by
  have h32 : ∀ x : Nat, x % 32 < 32 := fun x => Nat.mod_lt _ (by norm_num)
  interval_cases bits
  · simp [toWordsAux, fromWordsAux]
  · simp only [toWordsAux, fromWordsAux, show (0 < 1) from by norm_num, if_true]
    norm_num [Nat.not_le_of_lt (h32 _), fromWordsAux]
    omega
  · simp only [toWordsAux, fromWordsAux]
    norm_num [Nat.not_le_of_lt (h32 _), fromWordsAux]
    omega
  · simp only [toWordsAux, fromWordsAux]
    norm_num [Nat.not_le_of_lt (h32 _), fromWordsAux]
    omega
  · simp only [toWordsAux, fromWordsAux]
    norm_num [Nat.not_le_of_lt (h32 _), fromWordsAux]
    omega

theorem from_to_roundtrip (data : List Nat) :
    ∀ bits vt vf, (∀ x ∈ data, x < 256) → bits < 5 →
      fromWordsAux (toWordsAux data vt bits) vf ((8 - bits) % 8) =
        if bits = 0 then some data
        else some ((vf % 2 ^ ((8 - bits) % 8) * 2 ^ bits + vt % 2 ^ bits) :: data) := by
  induction data with
  | nil => intro bits vt vf _ hb; exact from_to_nil bits vt vf hb
  | cons b rest ih =>
    intro bits vt vf hdata hb
    have h32 : ∀ x : Nat, x % 32 < 32 := fun x => Nat.mod_lt _ (by norm_num)
    have hbb : b < 256 := hdata b (by simp)
    have hrest : ∀ x ∈ rest, x < 256 := fun x hx => hdata x (by simp [hx])
    interval_cases bits
    · norm_num [toWordsAux]
      norm_num [fromWordsAux, Nat.not_le_of_lt (h32 _)]
      have ih0 := ih 3 (vt * 256 + b) (vf * 32 + (vt * 256 + b) / 8 % 32) hrest (by norm_num)
      norm_num at ih0
      rw [ih0]
      simp only [Option.some.injEq, List.cons.injEq, and_true]
      omega
    · norm_num [toWordsAux]
      norm_num [fromWordsAux, Nat.not_le_of_lt (h32 _)]
      refine ⟨?_, by omega⟩
      have ih1 := ih 4 (vt * 256 + b) (vf * 32 + (vt * 256 + b) / 16 % 32) hrest (by norm_num)
      norm_num at ih1
      rw [ih1]
      simp only [Option.some.injEq, List.cons.injEq, and_true]
      omega
    · norm_num [toWordsAux]
      norm_num [fromWordsAux, Nat.not_le_of_lt (h32 _)]
      refine ⟨rest, ?_, by omega, by omega, rfl⟩
      have ih2 := ih 0 (vt * 256 + b)
        ((vf * 32 + (vt * 256 + b) / 32 % 32) * 32 + (vt * 256 + b) % 32) hrest (by norm_num)
      norm_num at ih2
      exact ih2
    · norm_num [toWordsAux]
      norm_num [fromWordsAux, Nat.not_le_of_lt (h32 _)]
      refine ⟨?_, by omega⟩
      have ih3 := ih 1 (vt * 256 + b)
        ((vf * 32 + (vt * 256 + b) / 64 % 32) * 32 + (vt * 256 + b) / 2 % 32) hrest (by norm_num)
      norm_num at ih3
      rw [ih3]
      simp only [Option.some.injEq, List.cons.injEq, and_true]
      omega
    · norm_num [toWordsAux]
      norm_num [fromWordsAux, Nat.not_le_of_lt (h32 _)]
      refine ⟨?_, by omega⟩
      have ih4 := ih 2 (vt * 256 + b)
        ((vf * 32 + (vt * 256 + b) / 128 % 32) * 32 + (vt * 256 + b) / 4 % 32) hrest (by norm_num)
      norm_num at ih4
      rw [ih4]
      simp only [Option.some.injEq, List.cons.injEq, and_true]
      omega

theorem fromWords_toWords (data : List Nat) (h : ∀ x ∈ data, x < 256) :
    fromWords (toWords data) = some data := by
  have h0 := from_to_roundtrip data 0 0 0 h (by norm_num)
  norm_num at h0
  exact h0

theorem toWordsAux_lt (data : List Nat) :
    ∀ v bits w, w ∈ toWordsAux data v bits → w < 32 := by
  induction data with
  | nil =>
    intro v bits w hw
    simp only [toWordsAux] at hw
    split at hw
    · simp only [List.mem_singleton] at hw
      omega
    · simp at hw
  | cons b rest ih =>
    intro v bits w hw
    simp only [toWordsAux] at hw
    split at hw
    · simp only [List.mem_cons] at hw
      rcases hw with h | h | h
      · omega
      · omega
      · exact ih _ _ w h
    · simp only [List.mem_cons] at hw
      rcases hw with h | h
      · omega
      · exact ih _ _ w h

theorem toWordsAux_length (data : List Nat) :
    ∀ v bits, (toWordsAux data v bits).length ≤ 2 * data.length + 1 := by
  induction data with
  | nil =>
    intro v bits
    simp only [toWordsAux]
    split <;> simp
  | cons b rest ih =>
    intro v bits
    simp only [toWordsAux]
    split
    · have := ih (v * 2 ^ 8 + b) (bits + 8 - 10)
      simp only [List.length_cons]
      omega
    · have := ih (v * 2 ^ 8 + b) (bits + 8 - 5)
      simp only [List.length_cons]
      omega

theorem bech32Val_char : ∀ w, w < 32 → bech32Val (bech32Char w) = some w := by
  decide

theorem bech32Char_mem (w : Nat) : bech32Char w ∈ bech32Alphabet := by
  by_cases h : w < 32
  · revert h
    revert w
    decide
  · unfold bech32Char
    rw [List.getD_eq_default]
    · decide
    · simp [bech32Alphabet]
      omega

theorem bech32ReadWords_map (vs : List Nat) : ∀ chk, (∀ v ∈ vs, v < 32) →
    bech32ReadWords (vs.map bech32Char) chk = some (vs, List.foldl polymodFeed chk vs) := by
  induction vs with
  | nil => intro chk _; rfl
  | cons v rest ih =>
    intro chk h
    simp [bech32ReadWords, bech32Val_char v (h v (by simp)),
      ih (polymodFeed chk v) (fun x hx => h x (by simp [hx]))]

theorem bech32Checksum_lt (hrp : String) (words : List Nat) :
    ∀ w ∈ bech32Checksum hrp words, w < 32 := by
  intro w hw
  simp [bech32Checksum] at hw
  rcases hw with h | h | h | h | h | h <;> omega

theorem bech32_checksum_verifies (hrp : String) (words : List Nat) :
    List.foldl polymodFeed (hrpChk hrp) (words ++ bech32Checksum hrp words) = 1 := by
  rw [List.foldl_append]
  simp only [bech32Checksum]
  set chk0 := List.foldl polymodFeed (hrpChk hrp) words with hchk0
  set y := polymodStep (polymodStep (polymodStep (polymodStep (polymodStep
    (polymodStep chk0))))) ^^^ 1 with hy
  rw [foldl_feed_linear _ _ (by
      intro c hc
      simp at hc
      rcases hc with h | h | h | h | h | h <;> omega)
    (by simp)]
  have hylt : y < 2 ^ 30 := Nat.xor_lt_two_pow (polymodStep_lt _) (by norm_num)
  have hpack : packWords [y / 2 ^ 25 % 32, y / 2 ^ 20 % 32, y / 2 ^ 15 % 32,
      y / 2 ^ 10 % 32, y / 2 ^ 5 % 32, y % 32] = y := by
    simp only [packWords, List.length_cons, List.length_nil]
    norm_num
    omega
  rw [hpack]
  show stepIter 6 chk0 ^^^ y = 1
  rw [hy, ← Nat.xor_assoc]
  show (stepIter 6 chk0 ^^^ stepIter 6 chk0) ^^^ 1 = 1
  rw [Nat.xor_self, Nat.zero_xor]

theorem map_eq_self_of_fix {α : Type} (l : List α) (f : α → α) (h : ∀ c ∈ l, f c = c) :
    l.map f = l := by
  induction l with
  | nil => rfl
  | cons c rest ih =>
    simp only [List.map_cons, h c (by simp), ih (fun x hx => h x (by simp [hx])), List.cons.injEq,
      and_self]

theorem bech32_decode_encode (words : List Nat) (s : String)
    (hw : ∀ w ∈ words, w < 32) (henc : bech32Encode "nsec" words 5000 = some s) :
    bech32Decode s 5000 = some ("nsec", words) := by
  simp only [bech32Encode] at henc
  split at henc
  · cases henc
  · split at henc
    · cases henc
    · split at henc
      · cases henc
      · rename_i hlim hne hall
        cases henc
        set cs := bech32Checksum "nsec" words with hcs
        set chars := List.map bech32Char (words ++ cs) with hchars
        have hcslen : cs.length = 6 := by rw [hcs]; simp [bech32Checksum]
        have hcharslen : chars.length = words.length + 6 := by
          rw [hchars]; simp [hcslen]
        have hwlim : words.length ≤ 4989 := by
          simp [String.length] at hlim; omega
        have hmem : ∀ c ∈ chars, c ∈ bech32Alphabet := by
          intro c hc
          rw [hchars] at hc
          simp only [List.mem_map] at hc
          obtain ⟨w, _, hwc⟩ := hc
          exact hwc ▸ bech32Char_mem w
        have hlow : ∀ c ∈ bech32Alphabet, toLowerChar c = c := by decide
        have hno1 : ∀ c ∈ bech32Alphabet, c ≠ '1' := by decide
        have hdata : ("nsec" ++ "1" ++ String.mk chars).data =
            'n' :: 's' :: 'e' :: 'c' :: '1' :: chars := by
          simp
        have hslen : ("nsec" ++ "1" ++ String.mk chars).length = 5 + chars.length := by
          simp only [String.length_append, String.length_mk]
          show 4 + 1 + chars.length = 5 + chars.length
          omega
        simp only [bech32Decode]
        rw [if_neg (by omega : ¬ ("nsec" ++ "1" ++ String.mk chars).length < 8)]
        rw [if_neg (by omega : ¬ 5000 < ("nsec" ++ "1" ++ String.mk chars).length)]
        have htl : ("nsec" ++ "1" ++ String.mk chars).toList =
            'n' :: 's' :: 'e' :: 'c' :: '1' :: chars := hdata
        rw [htl]
        have hmapfull : List.map toLowerChar ('n' :: 's' :: 'e' :: 'c' :: '1' :: chars) =
            'n' :: 's' :: 'e' :: 'c' :: '1' :: chars := by
          simp only [List.map_cons]
          rw [map_eq_self_of_fix chars toLowerChar (fun c hc => hlow c (hmem c hc))]
          rfl
        rw [hmapfull]
        rw [if_neg (by simp)]
        have hlast : lastIndexOf ('n' :: 's' :: 'e' :: 'c' :: '1' :: chars) '1' = some 4 := by
          unfold lastIndexOf
          have hrev : ('n' :: 's' :: 'e' :: 'c' :: '1' :: chars).reverse =
              chars.reverse ++ ['1', 'c', 'e', 's', 'n'] := by simp
          rw [hrev, List.findIdx?_append]
          have hnone : chars.reverse.findIdx? (fun a => a = '1') = none := by
            rw [List.findIdx?_eq_none_iff]
            intro c hc
            simp [hno1 c (hmem c (List.mem_reverse.mp hc))]
          rw [hnone]
          simp [hcharslen]
        rw [hlast]
        show (if (4 : Nat) = 0 then none
          else if chars.length < 6 then none
          else if ¬ (['n', 's', 'e', 'c'].all validPrefixChar) = true then none
          else
            match bech32ReadWords chars (hrpChk (String.mk ['n', 's', 'e', 'c'])) with
            | none => none
            | some (ws, chk) =>
              if chk ≠ 1 then none
              else some (String.mk ['n', 's', 'e', 'c'], ws.take (ws.length - 6))) =
          some ("nsec", words)
        rw [if_neg (by norm_num)]
        rw [if_neg (by omega)]
        rw [if_neg (by decide)]
        have hbound : ∀ v ∈ words ++ cs, v < 32 := by
          intro v hv
          rcases List.mem_append.mp hv with h | h
          · exact hw v h
          · exact bech32Checksum_lt "nsec" words v (hcs ▸ h)
        rw [show String.mk ['n', 's', 'e', 'c'] = "nsec" from rfl]
        rw [hchars]
        rw [bech32ReadWords_map (words ++ cs) (hrpChk "nsec") hbound]
        rw [hcs]
        rw [bech32_checksum_verifies "nsec" words]
        simp only [ne_eq, not_true_eq_false, if_false, ite_false]
        have htake : (words ++ bech32Checksum "nsec" words).length - 6 = words.length := by
          simp only [List.length_append]
          rw [← hcs, hcslen]
          omega
        rw [htake, List.take_left' rfl]

theorem natToBytesBE_length (n x : Nat) : (natToBytesBE n x).length = n := by
  induction n generalizing x with
  | zero => rfl
  | succ n ih => simp [natToBytesBE, ih]

theorem natToBytesBE_lt (n x : Nat) : ∀ b ∈ natToBytesBE n x, b < 256 := by
  induction n generalizing x with
  | zero => simp [natToBytesBE]
  | succ n ih =>
    intro b hb
    simp only [natToBytesBE, List.mem_append, List.mem_singleton] at hb
    rcases hb with h | h
    · exact ih _ b h
    · omega

theorem hexDigit_roundtrip : ∀ m, m < 16 → hexDigitVal (hexDigitChar m) = some m := by
  decide

theorem hexToBytes_bytesToHex (k : List Nat) (h : ∀ b ∈ k, b < 256) :
    hexToBytes (bytesToHex k) = some k := by
  show hexToBytesAux (String.mk (List.flatten (k.map byteToHex))).toList = some k
  rw [show (String.mk (List.flatten (k.map byteToHex))).toList =
    List.flatten (k.map byteToHex) from rfl]
  induction k with
  | nil => rfl
  | cons b rest ih =>
    have hb : b < 256 := h b (by simp)
    simp only [List.map_cons, List.flatten_cons, byteToHex, List.cons_append, List.nil_append]
    show hexToBytesAux (hexDigitChar (b / 16) :: hexDigitChar (b % 16) ::
      List.flatten (rest.map byteToHex)) = some (b :: rest)
    simp only [hexToBytesAux]
    rw [hexDigit_roundtrip (b / 16) (by omega), hexDigit_roundtrip (b % 16) (by omega)]
    rw [ih (fun x hx => h x (by simp [hx]))]
    simp only [Option.map]
    congr 2
    omega

theorem nsecEncode_eq (sk : List Nat) (hlen : sk.length = 32) :
    nsecEncode sk = some ("nsec" ++ "1" ++
      String.mk ((toWords sk ++ bech32Checksum "nsec" (toWords sk)).map bech32Char)) := by
  have hwl : (toWords sk).length ≤ 65 := by
    have := toWordsAux_length sk 0 0
    simp only [toWords]
    omega
  simp only [nsecEncode, bech32Encode]
  rw [if_neg (by simp [String.length]; omega)]
  rw [if_neg (by decide)]
  rw [if_neg (by decide)]

theorem nsec_roundtrip (sk : List Nat) (hlen : sk.length = 32) (hb : ∀ x ∈ sk, x < 256) :
    ∃ s, nsecEncode sk = some s ∧ nip19DecodeNsec s = some sk := by
  refine ⟨_, nsecEncode_eq sk hlen, ?_⟩
  simp only [nip19DecodeNsec]
  rw [bech32_decode_encode (toWords sk) _ (fun w hw => toWordsAux_lt sk 0 0 w hw)
    (nsecEncode_eq sk hlen)]
  show (if ("nsec" : String) ≠ "nsec" then none
    else match fromWords (toWords sk) with
      | none => none
      | some bytes => if bytes.length = 32 then some bytes else none) = some sk
  rw [if_neg (by simp)]
  rw [fromWords_toWords sk hb]
  show (if sk.length = 32 then some sk else none) = some sk
  rw [if_pos hlen]

theorem nsec_startsWith (sk : List Nat) (s : String) (hlen : sk.length = 32)
    (h : nsecEncode sk = some s) : jsStartsWith s "nsec1" = true := by
  rw [nsecEncode_eq sk hlen] at h
  cases h
  show List.isPrefixOf ['n', 's', 'e', 'c', '1'] ('n' :: 's' :: 'e' :: 'c' :: '1' :: _) = true
  simp [List.isPrefixOf]

theorem hexDigitChar_ne_n : ∀ m, m < 16 → hexDigitChar m ≠ 'n' := by
  decide

theorem hex_not_nsec (sk : List Nat) (hne : sk ≠ []) (hb : ∀ x ∈ sk, x < 256) :
    jsStartsWith (bytesToHex sk) "nsec1" = false := by
  cases sk with
  | nil => exact absurd rfl hne
  | cons b rest =>
    have hblt : b < 256 := hb b (by simp)
    have hdn : hexDigitChar (b / 16) ≠ 'n' := hexDigitChar_ne_n (b / 16) (by omega)
    show List.isPrefixOf ['n', 's', 'e', 'c', '1']
      (hexDigitChar (b / 16) :: hexDigitChar (b % 16) :: _) = false
    simp [List.isPrefixOf, hdn.symm]

theorem import_of_keysOfPriv (sk : List Nat) (keys : NostrKeys) (hlen : sk.length = 32)
    (hb : ∀ x ∈ sk, x < 256) (h : keysOfPriv sk = some keys) :
    importPrivateKey keys.nsec = some keys ∧ importPrivateKey keys.privateKey = some keys := by
  have hinv := h
  simp only [keysOfPriv] at hinv
  split at hinv
  · cases hinv
  · rename_i pub hpub
    split at hinv
    · rename_i np ns hnp hns
      cases hinv
      obtain ⟨s, hs, hdec⟩ := nsec_roundtrip sk hlen hb
      rw [hs] at hns
      cases hns
      constructor
      · show importPrivateKey ns = some _
        simp only [importPrivateKey]
        rw [nsec_startsWith sk ns hlen hs, if_pos rfl]
        simp only [hdec]
        rw [if_neg (show ¬ sk.length ≠ 32 by omega)]
        exact h
      · show importPrivateKey (bytesToHex sk) = some _
        simp only [importPrivateKey]
        rw [hex_not_nsec sk (by intro hc; rw [hc] at hlen; simp at hlen) hb]
        rw [if_neg (by simp)]
        simp only [hexToBytes_bytesToHex sk hb]
        rw [if_neg (show ¬ sk.length ≠ 32 by omega)]
        exact h
    · cases hinv

/-- C9: decoding inverts encoding for every valid 32-byte private key under
both supported encodings (bech32 `nsec` and raw hex), and importing either
encoding of a generated key pair's private key reproduces the whole key
pair — public key, private key, and both encodings. -/
theorem c9_key_roundtrip :
    (∀ k : List Nat, k.length = 32 → (∀ x ∈ k, x < 256) →
      hexToBytes (bytesToHex k) = some k ∧
      ∃ s, nsecEncode k = some s ∧ nip19DecodeNsec s = some k) ∧
    (∀ entropy keys, generateKeys entropy = some keys →
      importPrivateKey keys.nsec = some keys ∧
      importPrivateKey keys.privateKey = some keys) := by
  constructor
  · intro k hlen hb
    exact ⟨hexToBytes_bytesToHex k hb, nsec_roundtrip k hlen hb⟩
  · intro entropy keys h
    exact import_of_keysOfPriv _ keys (natToBytesBE_length 32 _) (natToBytesBE_lt 32 _) h

set_option maxRecDepth 1000000 in
/-- C9 (witness): the round-trips evaluated on a concrete 32-byte key and
on a concretely generated key pair. -/
theorem c9_witness :
    (hexToBytes (bytesToHex (natToBytesBE 32 7)) = some (natToBytesBE 32 7) ∧
      ∃ s, nsecEncode (natToBytesBE 32 7) = some s ∧
        nip19DecodeNsec s = some (natToBytesBE 32 7)) ∧
    ∃ keys, generateKeys (List.replicate 40 7) = some keys ∧
      importPrivateKey keys.nsec = some keys ∧
      importPrivateKey keys.privateKey = some keys := by
  constructor
  · exact c9_key_roundtrip.1 (natToBytesBE 32 7) (by decide) (by decide)
  · cases h : generateKeys (List.replicate 40 7) with
    | none =>
      have hs : (generateKeys (List.replicate 40 7)).isSome = true := by rfl
      rw [h] at hs
      simp at hs
    | some keys =>
      exact ⟨keys, rfl, c9_key_roundtrip.2 (List.replicate 40 7) keys h⟩
end Nostrich
